import Mathlib

/-!
# gocomet: the message broker (`message.go`)

A shallow embedding of `Broker` and its operations `register`, `deregister`,
`subscribe`, `hasClient`, `unsubscribe`, `broadcast` and `send`, executed
sequentially (one call at a time, so the `RWMutex` is not part of the state).

* Go maps with string keys are finite partial functions `String → Option α`;
  a missing key of `rules` is the nil inner map.
* Delivery channels are heap objects: a channel is its index in `Broker.chans`,
  which records whether it is still open. `make(chan *Message)` allocates the
  next index, `close` marks it closed.
* Run-time panics are explicit: an operation that can panic returns
  `Except Fault _`.
* `broadcast` returns the trace of the sends it performs and how it ends:
  it returns, blocks forever (send on a nil channel) or panics (send on a
  closed channel). A send on an open channel is recorded and taken to complete
  (its reader accepts the message).
* The lock discipline is read off the events of a call (`Event`): the lock and
  unlock calls, the calls into the Router and the channel sends, in the order
  the source makes them.
* The Router and the session layer's `handshake` are in files that are not
  among the sources; they are modelled from the specification.
-/

namespace Gocomet

/-! ## Messages -/

/-- The Go struct `Message` with fields `channel` and `data`. -/
structure Message where
  channel : String
  data : String
deriving DecidableEq, Repr

/-- The characters `fmt.Sprintf` prints for a format whose only verb is `%v` and
whose operands are strings: `%v` prints the next operand as it is (and
`%!v(MISSING)` when none is left), any other character prints as itself. -/
def sprintfChars : List Char → List String → List Char
  | '%' :: 'v' :: rest, a :: args => a.data ++ sprintfChars rest args
  | '%' :: 'v' :: rest, [] => "%!v(MISSING)".data ++ sprintfChars rest []
  | c :: rest, args => c :: sprintfChars rest args
  | [], _ => []

/-- The library call `fmt.Sprintf(format, args...)` on string operands. -/
def Sprintf (format : String) (args : List String) : String :=
  ⟨sprintfChars format.data args⟩

/-- The method `Message.String`: `fmt.Sprintf("@%v: %v", msg.channel, msg.data)`. -/
def Message.String (msg : Message) : String :=
  Sprintf "@%v: %v" [msg.channel, msg.data]

/-! ## Go maps with string keys -/

/-- A Go map from strings to `α`, observed through lookup. -/
abbrev GoMap (α : Type) := String → Option α

/-- The result of `make(map[string]α)`: no key is present. -/
def GoMap.empty {α : Type} : GoMap α := fun _ => none

/-- The assignment `m[k] = v`. -/
def GoMap.set {α : Type} (m : GoMap α) (k : String) (v : α) : GoMap α :=
  fun k' => if k' = k then some v else m k'

/-- The builtin `delete(m, k)`; nothing happens when `k` is absent. -/
def GoMap.delete {α : Type} (m : GoMap α) (k : String) : GoMap α :=
  fun k' => if k' = k then none else m k'

/-! ## Run-time panics and delivery channels -/

/-- The run-time panics the broker's operations can raise. -/
inductive Fault
  | assignToNilMap
  | closeOfClosedChannel
  | closeOfNilChannel
deriving DecidableEq, Repr

/-- Whether a delivery channel has been closed. -/
inductive ChanState
  | opened
  | closed
deriving DecidableEq, Repr

/-- The builtin `close(ch)` on the heap of channels: closing a closed channel
panics, and so does closing a channel that was never made. -/
def closeChan (chans : List ChanState) (ch : Nat) : Except Fault (List ChanState) :=
  match chans[ch]? with
  | some ChanState.opened => Except.ok (chans.set ch ChanState.closed)
  | some ChanState.closed => Except.error Fault.closeOfClosedChannel
  | none => Except.error Fault.closeOfNilChannel

/-! ## Router -/

/-- Modelled from the spec: the type `Rule` is declared in a file that is not
among the sources. Spec §4.2: the handle "stores a back-reference to the inner
set and the client ID key"; the inner set is named by its channel. -/
structure Rule where
  channel : String
  clientId : String
deriving DecidableEq, Repr

/-- Modelled from the spec: the type `Router` is declared in a file that is not
among the sources. Spec §3: a "mapping from channel name → set of
currently-subscribed client IDs". The subscribers of a channel are a list, in
the order of subscription; `Router.add` keeps it free of repetitions,
`Router.addEntry` does not. -/
structure Router where
  index : String → List String

/-- Modelled from the spec: `newRouter` is not among the sources; the index of
a new Router has no subscriber. -/
def newRouter : Router := ⟨fun _ => []⟩

/-- Modelled from the spec: `Router.add` is not among the sources. Spec §4.2:
"registers `clientID` as a subscriber of `channel`; returns an opaque handle".
This is the reading in which the index holds sets (§3, and the "inner set of
client IDs" of §4.2's algorithm): adding a subscriber that is present leaves it
as is. `Router.addEntry` is the other reading §4.2 allows. -/
def Router.add (r : Router) (channel clientId : String) : Rule × Router :=
  (⟨channel, clientId⟩,
    if clientId ∈ r.index channel then r
    else ⟨fun ch => if ch = channel then r.index channel ++ [clientId] else r.index ch⟩)

/-- Modelled from the spec: `Rule.remove` is not among the sources. Spec §4.2:
"cancels exactly the subscription the handle represents ... does not affect other
subscribers of the same channel", through the handle's inner set and client
key; this is it for the reading of `Router.add`, `Rule.removeEntry` for the other. -/
def Rule.remove (rule : Rule) (r : Router) : Router :=
  ⟨fun ch =>
    if ch = rule.channel then (r.index ch).filter (fun c => decide (c ≠ rule.clientId))
    else r.index ch⟩

/-- Modelled from the spec: `Router.run` is not among the sources. Spec §4.2
(there called fanout): "returns the current subscriber snapshot for `channel`;
empty if none". -/
def Router.run (r : Router) (channel : String) : List String :=
  r.index channel

/-! ## Broker -/

/-- The Go struct `Broker` (without its lock), together with the heap of the
delivery channels it has made: `chans[i]` is the state of channel `i`. -/
structure Broker where
  clients : GoMap Nat
  router : Router
  rules : GoMap (GoMap Rule)
  chans : List ChanState

/-- The function `newBroker`. -/
def newBroker : Broker :=
  { clients := GoMap.empty, router := newRouter, rules := GoMap.empty, chans := [] }

/-- The method `Broker.register`: the client's channel and the broker afterwards. -/
def register (b : Broker) (clientId : String) : Nat × Broker :=
  match b.clients clientId with
  | some ch => (ch, b)
  | none =>
    let ch := b.chans.length
    (ch, { b with
            clients := b.clients.set clientId ch
            rules := b.rules.set clientId GoMap.empty
            chans := b.chans ++ [ChanState.opened] })

/-- The method `Broker.deregister`. -/
def deregister (b : Broker) (clientId : String) : Except Fault Broker :=
  match b.clients clientId with
  | some ch =>
    match closeChan b.chans ch with
    | Except.ok chans =>
      Except.ok { b with
        clients := b.clients.delete clientId
        chans := chans
        rules := b.rules.delete clientId }
    | Except.error e => Except.error e
  | none => Except.ok { b with rules := b.rules.delete clientId }

/-- The method `Broker.hasClient`. -/
def hasClient (b : Broker) (clientId : String) : Bool :=
  (b.clients clientId).isSome

/-- The method `Broker.subscribe`. The write `b.rules[clientId][channel] = rule`
panics when `b.rules[clientId]` is the nil map. -/
def subscribe (b : Broker) (clientId channel : String) : Except Fault Broker :=
  if !hasClient b clientId then Except.ok b
  else
    let added := b.router.add channel clientId
    match b.rules clientId with
    | none => Except.error Fault.assignToNilMap
    | some m =>
      Except.ok { b with
        router := added.2
        rules := b.rules.set clientId (m.set channel added.1) }

/-- The handle recorded for `(clientId, channel)`: the Go lookup
`b.rules[clientId][channel]`, absent also when the inner map is nil. -/
def handleOf (b : Broker) (clientId channel : String) : Option Rule :=
  match b.rules clientId with
  | none => none
  | some m => m channel

/-- The method `Broker.unsubscribe`: its result and the broker afterwards. -/
def unsubscribe (b : Broker) (clientId channel : String) : Bool × Broker :=
  if !hasClient b clientId then (false, b)
  else
    match b.rules clientId with
    | none => (false, b)
    | some m =>
      match m channel with
      | some rule =>
        (true, { b with
                  router := rule.remove b.router
                  rules := b.rules.set clientId (m.delete channel) })
      | none => (false, b)

/-! ## Broadcast -/

/-- How one `Broker.send` ends. -/
inductive SendResult
  | sent (ch : Nat)
  | blocksForever
  | panics (ch : Nat)
deriving DecidableEq, Repr

/-- The method `Broker.send`: `ch := b.clients[client]` is nil for a missing
client, and `ch <- msg` blocks forever on a nil channel, panics on a closed one. -/
def send (b : Broker) (client : String) (_msg : Message) : SendResult :=
  match b.clients client with
  | none => SendResult.blocksForever
  | some ch =>
    match b.chans[ch]? with
    | some ChanState.opened => SendResult.sent ch
    | some ChanState.closed => SendResult.panics ch
    | none => SendResult.blocksForever

/-- One completed send of a broadcast: the target, its channel, the message. -/
structure Delivery where
  client : String
  ch : Nat
  msg : Message
deriving DecidableEq, Repr

/-- How a call of `broadcast` ends. -/
inductive Status
  | returned
  | blocked (client : String)
  | panicked (client : String)
deriving DecidableEq, Repr

/-- What a call of `broadcast` does: the sends it completes, in order, and its end. -/
structure Trace where
  sends : List Delivery
  status : Status
deriving DecidableEq, Repr

/-- The loop `for _, c := range targets { b.send(c, &Message{channel, msg}) }`. -/
def broadcastLoop (b : Broker) (msg : Message) : List String → Trace
  | [] => ⟨[], Status.returned⟩
  | c :: cs =>
    match send b c msg with
    | SendResult.sent ch =>
      let rest := broadcastLoop b msg cs
      ⟨⟨c, ch, msg⟩ :: rest.sends, rest.status⟩
    | SendResult.blocksForever => ⟨[], Status.blocked c⟩
    | SendResult.panics _ => ⟨[], Status.panicked c⟩

/-- The method `Broker.broadcast`. -/
def broadcast (b : Broker) (channel msg : String) : Trace :=
  let targets := b.router.run channel
  if targets.length > 0 then broadcastLoop b ⟨channel, msg⟩ targets
  else ⟨[], Status.returned⟩

/-! ## Sequences of calls -/

/-- A call of one of the four state-changing operations. -/
inductive Op
  | register (clientId : String)
  | deregister (clientId : String)
  | subscribe (clientId channel : String)
  | unsubscribe (clientId channel : String)
deriving DecidableEq, Repr

/-- One call on a broker, or the panic it raises. -/
def step (b : Broker) : Op → Except Fault Broker
  | Op.register c => Except.ok (register b c).2
  | Op.deregister c => deregister b c
  | Op.subscribe c ch => subscribe b c ch
  | Op.unsubscribe c ch => Except.ok (unsubscribe b c ch).2

/-- A sequence of calls, one after the other, stopping at the first panic. -/
def exec (b : Broker) : List Op → Except Fault Broker
  | [] => Except.ok b
  | op :: ops =>
    match step b op with
    | Except.ok b' => exec b' ops
    | Except.error e => Except.error e

/-- The broker states reachable from `newBroker()` by calls of `register`,
`deregister`, `subscribe` and `unsubscribe`. -/
def Reachable (b : Broker) : Prop :=
  ∃ ops : List Op, exec newBroker ops = Except.ok b

/-- The trace of `broadcast(channel, msg)` after a sequence of calls on a new
broker; `none` when the sequence panics. -/
def broadcastAfter (ops : List Op) (channel msg : String) : Option Trace :=
  match exec newBroker ops with
  | Except.ok b => some (broadcast b channel msg)
  | Except.error _ => none

/-- The Router's targets of `channel` after a sequence of calls on a new broker. -/
def targetsAfter (ops : List Op) (channel : String) : Option (List String) :=
  match exec newBroker ops with
  | Except.ok b => some (b.router.run channel)
  | Except.error _ => none

/-- The broker after a sequence of calls on a new broker (the new broker itself
when the sequence panics). -/
def stateAfter (ops : List Op) : Broker :=
  match exec newBroker ops with
  | Except.ok b => b
  | Except.error _ => newBroker

/-- The clients a call of `broadcast` called `send` for: those of its completed
sends, then the one it blocked or panicked on. -/
def Trace.attempted (t : Trace) : List String :=
  t.sends.map (fun d => d.client) ++
    (match t.status with
     | Status.returned => []
     | Status.blocked c => [c]
     | Status.panicked c => [c])

/-- The consistency of the broker's bookkeeping that every reachable state has:
a client has a handle map exactly when it has a delivery channel, registered
channels are open and not shared, and a recorded handle is the one of its own
pair and has its client in the Router's set. -/
structure Inv (b : Broker) : Prop where
  rules_none : ∀ c, b.rules c = none ↔ b.clients c = none
  chan_open : ∀ c x, b.clients c = some x → b.chans[x]? = some ChanState.opened
  chan_inj : ∀ c d x, b.clients c = some x → b.clients d = some x → c = d
  handle : ∀ c m ch r, b.rules c = some m → m ch = some r →
    r = ⟨ch, c⟩ ∧ c ∈ b.router.run ch

/-! ## Sequences of calls with broadcasts -/

/-- A call of a state-changing operation or of `broadcast`. -/
inductive Call
  | op (o : Op)
  | broadcast (channel msg : String)
deriving DecidableEq, Repr

/-- A sequence of calls made one after the other by one caller: it goes on
after a `broadcast` only when that call returns, and ends (`none`) at a panic
or at a `broadcast` that blocks forever. -/
def run (b : Broker) : List Call → Option Broker
  | [] => some b
  | Call.op o :: cs =>
    match step b o with
    | Except.ok b' => run b' cs
    | Except.error _ => none
  | Call.broadcast channel msg :: cs =>
    if (broadcast b channel msg).status = Status.returned then run b cs else none

/-! ## Lock and Router events of a call -/

/-- The steps of a call that the lock discipline speaks of: taking and
releasing the read lock (`RLock`, `RUnlock`) and the write lock (`Lock`,
`Unlock`), the calls into the Router, the send on a delivery channel and the
close of one. -/
inductive Event
  | rlock
  | runlock
  | lock
  | unlock
  | routerAdd (channel clientId : String)
  | routerRemove (rule : Rule)
  | routerRun (channel : String)
  | chanSend (client : String) (msg : Message)
  | chanClose (ch : Nat)
deriving DecidableEq, Repr

/-- The read locks and write locks a call has taken and not yet released. -/
structure Held where
  read : Nat
  write : Nat
deriving DecidableEq, Repr

/-- The locks held once an event has happened. -/
def Held.after (h : Held) : Event → Held
  | Event.rlock => ⟨h.read + 1, h.write⟩
  | Event.runlock => ⟨h.read - 1, h.write⟩
  | Event.lock => ⟨h.read, h.write + 1⟩
  | Event.unlock => ⟨h.read, h.write - 1⟩
  | _ => h

/-- Whether the read lock or the write lock is held. -/
def Held.locked (h : Held) : Bool :=
  decide (0 < h.read) || decide (0 < h.write)

/-- The locks held after the events `pre` of a call that starts with none. -/
def heldAfter (pre : List Event) : Held :=
  pre.foldl Held.after ⟨0, 0⟩

/-- Whether the event is a send on a delivery channel (`ch <- msg`). -/
def Event.isSend : Event → Bool
  | Event.chanSend _ _ => true
  | _ => false

/-- The client a channel-send event is for. -/
def Event.sendTarget : Event → Option String
  | Event.chanSend client _ => some client
  | _ => none

/-- Whether the event is a call into the Router (`add`, `remove`, `run`). -/
def Event.isRouterCall : Event → Bool
  | Event.routerAdd _ _ => true
  | Event.routerRemove _ => true
  | Event.routerRun _ => true
  | _ => false

/-- Every channel send of the trace happens while no lock is held. -/
def SendsOutsideLock (tr : List Event) : Prop :=
  ∀ pre e post, tr = pre ++ e :: post → e.isSend = true → (heldAfter pre).locked = false

/-- Every call into the Router of the trace happens while a lock is held. -/
def RouterCallsUnderLock (tr : List Event) : Prop :=
  ∀ pre e post, tr = pre ++ e :: post → e.isRouterCall = true →
    (heldAfter pre).locked = true

/-- Every call into the Router of the trace happens while the write lock is
held, once, and the read lock is not. -/
def RouterCallsUnderWriteLock (tr : List Event) : Prop :=
  ∀ pre e post, tr = pre ++ e :: post → e.isRouterCall = true →
    heldAfter pre = ⟨0, 1⟩

/-- Every call into the Router of the trace happens while no lock is held. -/
def RouterCallsOutsideLock (tr : List Event) : Prop :=
  ∀ pre e post, tr = pre ++ e :: post → e.isRouterCall = true →
    (heldAfter pre).locked = false

/-- A check of the events of a trace against the locks held when each happens,
starting from the locks `h`: `ok h e` must hold of every event `e`. -/
def checkEvents (ok : Held → Event → Bool) : Held → List Event → Bool
  | _, [] => true
  | h, e :: es => ok h e && checkEvents ok (h.after e) es

/-- The events of `Broker.hasClient`: `RLock`, the lookup, the deferred `RUnlock`. -/
def hasClientEvents : List Event :=
  [Event.rlock, Event.runlock]

/-- The events of `Broker.register`: `Lock`, the map writes, the deferred `Unlock`. -/
def registerEvents : List Event :=
  [Event.lock, Event.unlock]

/-- The events of `Broker.deregister`: `Lock`, `close(ch)` when the client is
registered, the deferred `Unlock`. -/
def deregisterEvents (b : Broker) (clientId : String) : List Event :=
  [Event.lock] ++
    (match b.clients clientId with
     | some ch => [Event.chanClose ch]
     | none => []) ++
    [Event.unlock]

/-- The events of `Broker.subscribe`: `hasClient`, then for a registered client
`b.router.add`, `Lock`, the bookkeeping write, the deferred `Unlock`. -/
def subscribeEvents (b : Broker) (clientId channel : String) : List Event :=
  hasClientEvents ++
    (if !hasClient b clientId then []
     else [Event.routerAdd channel clientId, Event.lock, Event.unlock])

/-- The events of `Broker.unsubscribe`: `hasClient`, then for a registered
client `Lock`, `rule.remove()` when a handle is recorded, the deferred `Unlock`. -/
def unsubscribeEvents (b : Broker) (clientId channel : String) : List Event :=
  hasClientEvents ++
    (if !hasClient b clientId then []
     else
      [Event.lock] ++
        (match handleOf b clientId channel with
         | some rule => [Event.routerRemove rule]
         | none => []) ++
        [Event.unlock])

/-- The events of `Broker.send`: `RLock`, the lookup, `RUnlock`, then `ch <- msg`. -/
def sendEvents (client : String) (msg : Message) : List Event :=
  [Event.rlock, Event.runlock, Event.chanSend client msg]

/-- The events of the loop of `Broker.broadcast`: those of `send` for each target
in turn, up to and with the first send that does not complete. -/
def broadcastLoopEvents (b : Broker) (msg : Message) : List String → List Event
  | [] => []
  | c :: cs =>
    sendEvents c msg ++
      (match send b c msg with
       | SendResult.sent _ => broadcastLoopEvents b msg cs
       | SendResult.blocksForever => []
       | SendResult.panics _ => [])

/-- The events of `Broker.broadcast`: `b.router.run`, then the loop. -/
def broadcastEvents (b : Broker) (channel msg : String) : List Event :=
  Event.routerRun channel ::
    (if (b.router.run channel).length > 0 then
      broadcastLoopEvents b ⟨channel, msg⟩ (b.router.run channel)
     else [])

/-! ## The Router read as keeping one entry for every call of add -/

/-- The two Router operations that change the index, as the Broker calls them. -/
structure RouterOps where
  add : Router → String → String → Rule × Router
  remove : Rule → Router → Router

/-- The reading of the Router with one entry for a pair (`Router.add`). -/
def setRouter : RouterOps := ⟨Router.add, Rule.remove⟩

/-- The method `Broker.subscribe`, over either reading of the Router. -/
def subscribeOver (ops : RouterOps) (b : Broker) (clientId channel : String) :
    Except Fault Broker :=
  if !hasClient b clientId then Except.ok b
  else
    let added := ops.add b.router channel clientId
    match b.rules clientId with
    | none => Except.error Fault.assignToNilMap
    | some m =>
      Except.ok { b with
        router := added.2
        rules := b.rules.set clientId (m.set channel added.1) }

/-- The method `Broker.unsubscribe`, over either reading of the Router. -/
def unsubscribeOver (ops : RouterOps) (b : Broker) (clientId channel : String) :
    Bool × Broker :=
  if !hasClient b clientId then (false, b)
  else
    match b.rules clientId with
    | none => (false, b)
    | some m =>
      match m channel with
      | some rule =>
        (true, { b with
                  router := ops.remove rule b.router
                  rules := b.rules.set clientId (m.delete channel) })
      | none => (false, b)

/-- Modelled from the spec: the type `Server` is declared in a file that is not
among the sources (the tests call `newServer()` and `s.handshake()`). Spec §2:
the session layer is "built atop Broker" and owns "unique client-ID issuance
(handshake)"; §4.4 names as a scheme unique by construction a "monotonic
counter combined with a process/session salt", which are the fields here. -/
structure Server where
  broker : Broker
  salt : String
  counter : Nat

/-- Modelled from the spec: `newServer` is not among the sources; a new server
has a new broker and has issued no client ID. -/
def newServer (salt : String) : Server :=
  { broker := newBroker, salt := salt, counter := 0 }

/-- Modelled from the spec: `Server.handshake` is not among the sources. Spec
§4.4: it "generates a fresh, collision-free client ID and registers it with
Broker"; the ID is the salt followed by the counter, which then moves on. The
result is the ID and the server afterwards, or the error the call reports. -/
def handshake (s : Server) : Except String (String × Server) :=
  let clientId := s.salt ++ toString s.counter
  Except.ok (clientId,
    { s with broker := (register s.broker clientId).2, counter := s.counter + 1 })

/-- Modelled from the spec: the loop of the test `TestAvoidReuseClientId`, `n`
calls of `handshake` one after the other, stopping at the first error; the IDs
returned, in order, and the server afterwards. -/
def handshakes : Nat → Server → Except String (List String × Server)
  | 0, s => Except.ok ([], s)
  | n + 1, s =>
    match handshake s with
    | Except.ok (clientId, s1) =>
      match handshakes n s1 with
      | Except.ok (ids, s2) => Except.ok (clientId :: ids, s2)
      | Except.error e => Except.error e
    | Except.error e => Except.error e

/-- The number a list of decimal digit characters stands for. -/
def digitsValue (cs : List Char) : Nat :=
  cs.foldl (fun a c => 10 * a + (c.toNat - 48)) 0

/-! ## Lemmas on the Router and on maps -/

theorem GoMap.set_same {α : Type} (m : GoMap α) (k : String) (v : α) :
    (m.set k v) k = some v := by
  simp [GoMap.set]

theorem GoMap.set_other {α : Type} (m : GoMap α) (k k' : String) (v : α) (h : k' ≠ k) :
    (m.set k v) k' = m k' := by
  simp [GoMap.set, h]

theorem GoMap.delete_same {α : Type} (m : GoMap α) (k : String) :
    (m.delete k) k = none := by
  simp [GoMap.delete]

theorem GoMap.delete_other {α : Type} (m : GoMap α) (k k' : String) (h : k' ≠ k) :
    (m.delete k) k' = m k' := by
  simp [GoMap.delete, h]

theorem GoMap.delete_absent {α : Type} (m : GoMap α) (k : String) (h : m k = none) :
    m.delete k = m := by
  funext k'
  by_cases hk : k' = k
  · subst hk; simp [GoMap.delete, h]
  · simp [GoMap.delete, hk]

theorem Router.mem_add_iff (r : Router) (channel clientId ch x : String) :
    x ∈ (r.add channel clientId).2.run ch ↔
      x ∈ r.run ch ∨ (ch = channel ∧ x = clientId) := by
  unfold Router.add Router.run
  by_cases hmem : clientId ∈ r.index channel
  · simp only [hmem, if_true]
    constructor
    · intro h; exact Or.inl h
    · rintro (h | ⟨h1, h2⟩)
      · exact h
      · subst h1; subst h2; exact hmem
  · simp only [hmem, if_false]
    by_cases hch : ch = channel
    · subst hch; simp
    · simp [hch]

theorem Rule.mem_remove_iff (rule : Rule) (r : Router) (ch x : String) :
    x ∈ (rule.remove r).run ch ↔
      x ∈ r.run ch ∧ ¬ (ch = rule.channel ∧ x = rule.clientId) := by
  unfold Rule.remove Router.run
  by_cases hch : ch = rule.channel
  · simp [hch]
  · simp [hch]

/-! ## The invariant of the reachable states -/

theorem inv_newBroker : Inv newBroker := by
  refine ⟨?_, ?_, ?_, ?_⟩
  · intro c; simp [newBroker, GoMap.empty]
  · intro c x h; simp [newBroker, GoMap.empty] at h
  · intro c d x h; simp [newBroker, GoMap.empty] at h
  · intro c m ch r h; simp [newBroker, GoMap.empty] at h

theorem register_of_absent (b : Broker) (c : String) (h : b.clients c = none) :
    register b c = (b.chans.length,
      { b with
        clients := b.clients.set c b.chans.length
        rules := b.rules.set c GoMap.empty
        chans := b.chans ++ [ChanState.opened] }) := by
  simp [register, h]

theorem register_of_present (b : Broker) (c : String) (x : Nat) (h : b.clients c = some x) :
    register b c = (x, b) := by
  simp [register, h]

theorem inv_register (b : Broker) (c : String) (hb : Inv b) : Inv (register b c).2 := by
  cases hc : b.clients c with
  | some x => rw [register_of_present b c x hc]; exact hb
  | none =>
    rw [register_of_absent b c hc]
    have hlt : ∀ d x, b.clients d = some x → x < b.chans.length := by
      intro d x hd
      have := hb.chan_open d x hd
      by_contra hge
      rw [List.getElem?_eq_none (Nat.le_of_not_lt hge)] at this
      exact absurd this (by simp)
    refine ⟨?_, ?_, ?_, ?_⟩
    · intro d
      by_cases hd : d = c
      · subst hd; simp [GoMap.set]
      · simp [GoMap.set, hd, hb.rules_none d]
    · intro d x hd
      by_cases hdc : d = c
      · subst hdc
        simp [GoMap.set] at hd
        subst hd
        simp
      · simp [GoMap.set, hdc] at hd
        have h1 := hb.chan_open d x hd
        have h2 := hlt d x hd
        simp only [List.getElem?_append_left h2]
        exact h1
    · intro d e x hd he
      by_cases hdc : d = c
      · by_cases hec : e = c
        · rw [hdc, hec]
        · subst hdc
          simp [GoMap.set] at hd
          simp [GoMap.set, hec] at he
          have := hlt e x he
          omega
      · by_cases hec : e = c
        · subst hec
          simp [GoMap.set] at he
          simp [GoMap.set, hdc] at hd
          have := hlt d x hd
          omega
        · simp [GoMap.set, hdc] at hd
          simp [GoMap.set, hec] at he
          exact hb.chan_inj d e x hd he
    · intro d m ch r hm hr
      by_cases hdc : d = c
      · subst hdc
        simp [GoMap.set] at hm
        subst hm
        simp [GoMap.empty] at hr
      · simp [GoMap.set, hdc] at hm
        exact hb.handle d m ch r hm hr

theorem deregister_of_absent (b : Broker) (c : String) (hb : Inv b)
    (hc : b.clients c = none) : deregister b c = Except.ok b := by
  have hr : b.rules c = none := (hb.rules_none c).mpr hc
  simp [deregister, hc, GoMap.delete_absent b.rules c hr]

theorem deregister_of_present (b : Broker) (c : String) (x : Nat) (hb : Inv b)
    (hc : b.clients c = some x) :
    deregister b c = Except.ok
      { b with
        clients := b.clients.delete c
        chans := b.chans.set x ChanState.closed
        rules := b.rules.delete c } := by
  have ho := hb.chan_open c x hc
  simp [deregister, hc, closeChan, ho]

theorem inv_deregister_present (b : Broker) (c : String) (x : Nat) (hb : Inv b)
    (hc : b.clients c = some x) :
    Inv { b with
        clients := b.clients.delete c
        chans := b.chans.set x ChanState.closed
        rules := b.rules.delete c } := by
  refine ⟨?_, ?_, ?_, ?_⟩
  · intro d
    by_cases hd : d = c
    · subst hd; simp [GoMap.delete]
    · simp [GoMap.delete, hd, hb.rules_none d]
  · intro d y hd
    by_cases hdc : d = c
    · subst hdc; simp [GoMap.delete] at hd
    · simp [GoMap.delete, hdc] at hd
      have hne : x ≠ y := by
        intro hxy
        subst hxy
        exact hdc (hb.chan_inj d c x hd hc)
      simp only [List.getElem?_set_ne hne]
      exact hb.chan_open d y hd
  · intro d e y hd he
    by_cases hdc : d = c
    · subst hdc; simp [GoMap.delete] at hd
    · by_cases hec : e = c
      · subst hec; simp [GoMap.delete] at he
      · simp [GoMap.delete, hdc] at hd
        simp [GoMap.delete, hec] at he
        exact hb.chan_inj d e y hd he
  · intro d m ch r hm hr
    by_cases hdc : d = c
    · subst hdc; simp [GoMap.delete] at hm
    · simp [GoMap.delete, hdc] at hm
      exact hb.handle d m ch r hm hr

theorem deregister_inv (b : Broker) (c : String) (hb : Inv b) :
    ∃ b', deregister b c = Except.ok b' ∧ Inv b' := by
  cases hc : b.clients c with
  | none => exact ⟨b, deregister_of_absent b c hb hc, hb⟩
  | some x =>
    exact ⟨_, deregister_of_present b c x hb hc, inv_deregister_present b c x hb hc⟩

theorem hasClient_false_iff (b : Broker) (c : String) :
    hasClient b c = false ↔ b.clients c = none := by
  unfold hasClient
  cases b.clients c <;> simp

theorem hasClient_true_iff (b : Broker) (c : String) :
    hasClient b c = true ↔ ∃ x, b.clients c = some x := by
  unfold hasClient
  cases b.clients c <;> simp

theorem subscribe_of_absent (b : Broker) (c ch : String) (hc : hasClient b c = false) :
    subscribe b c ch = Except.ok b := by
  simp [subscribe, hc]

theorem subscribe_of_present (b : Broker) (c ch : String) (m : GoMap Rule)
    (hc : hasClient b c = true) (hm : b.rules c = some m) :
    subscribe b c ch = Except.ok
      { b with
        router := (b.router.add ch c).2
        rules := b.rules.set c (m.set ch ⟨ch, c⟩) } := by
  simp [subscribe, hc, hm, Router.add]

theorem inv_subscribe_present (b : Broker) (c ch : String) (m : GoMap Rule) (hb : Inv b)
    (hm : b.rules c = some m) :
    Inv { b with
        router := (b.router.add ch c).2
        rules := b.rules.set c (m.set ch ⟨ch, c⟩) } := by
  refine ⟨?_, ?_, ?_, ?_⟩
  · intro d
    by_cases hd : d = c
    · subst hd
      have : b.clients d ≠ none := fun h => by
        have := (hb.rules_none d).mpr h
        rw [hm] at this
        exact absurd this (by simp)
      simp [GoMap.set, this]
    · simp [GoMap.set, hd, hb.rules_none d]
  · exact hb.chan_open
  · exact hb.chan_inj
  · intro d m' ch' r hm' hr
    simp only [Router.mem_add_iff]
    by_cases hdc : d = c
    · subst hdc
      simp [GoMap.set] at hm'
      subst hm'
      by_cases hch : ch' = ch
      · subst hch
        simp [GoMap.set] at hr
        exact ⟨hr.symm, Or.inr ⟨rfl, rfl⟩⟩
      · simp [GoMap.set, hch] at hr
        have := hb.handle d m ch' r hm hr
        exact ⟨this.1, Or.inl this.2⟩
    · simp [GoMap.set, hdc] at hm'
      have := hb.handle d m' ch' r hm' hr
      exact ⟨this.1, Or.inl this.2⟩

theorem rules_some_of_client (b : Broker) (c : String) (hb : Inv b)
    (hc : hasClient b c = true) : ∃ m, b.rules c = some m := by
  obtain ⟨x, hx⟩ := (hasClient_true_iff b c).mp hc
  cases hm : b.rules c with
  | some m => exact ⟨m, rfl⟩
  | none =>
    have := (hb.rules_none c).mp hm
    rw [hx] at this
    exact absurd this (by simp)

theorem subscribe_inv (b : Broker) (c ch : String) (hb : Inv b) :
    ∃ b', subscribe b c ch = Except.ok b' ∧ Inv b' := by
  cases hc : hasClient b c with
  | false => exact ⟨b, subscribe_of_absent b c ch hc, hb⟩
  | true =>
    obtain ⟨m, hm⟩ := rules_some_of_client b c hb hc
    exact ⟨_, subscribe_of_present b c ch m hc hm, inv_subscribe_present b c ch m hb hm⟩

theorem unsubscribe_of_absent (b : Broker) (c ch : String) (hc : hasClient b c = false) :
    unsubscribe b c ch = (false, b) := by
  simp [unsubscribe, hc]

theorem unsubscribe_of_no_handle (b : Broker) (c ch : String)
    (hh : handleOf b c ch = none) : unsubscribe b c ch = (false, b) := by
  unfold handleOf at hh
  unfold unsubscribe
  cases hc : hasClient b c with
  | false => simp
  | true =>
    cases hm : b.rules c with
    | none => simp
    | some m =>
      rw [hm] at hh
      simp at hh
      simp [hh]

theorem unsubscribe_of_handle (b : Broker) (c ch : String) (m : GoMap Rule) (rule : Rule)
    (hc : hasClient b c = true) (hm : b.rules c = some m) (hr : m ch = some rule) :
    unsubscribe b c ch =
      (true, { b with
                router := rule.remove b.router
                rules := b.rules.set c (m.delete ch) }) := by
  simp [unsubscribe, hc, hm, hr]

theorem inv_unsubscribe (b : Broker) (c ch : String) (hb : Inv b) :
    Inv (unsubscribe b c ch).2 := by
  cases hc : hasClient b c with
  | false => rw [unsubscribe_of_absent b c ch hc]; exact hb
  | true =>
    obtain ⟨m, hm⟩ := rules_some_of_client b c hb hc
    cases hr : m ch with
    | none =>
      have : handleOf b c ch = none := by simp [handleOf, hm, hr]
      rw [unsubscribe_of_no_handle b c ch this]; exact hb
    | some rule =>
      rw [unsubscribe_of_handle b c ch m rule hc hm hr]
      have hrule := (hb.handle c m ch rule hm hr).1
      refine ⟨?_, ?_, ?_, ?_⟩
      · intro d
        by_cases hd : d = c
        · subst hd
          obtain ⟨x, hx⟩ := (hasClient_true_iff b d).mp hc
          simp [GoMap.set, hx]
        · simp [GoMap.set, hd, hb.rules_none d]
      · exact hb.chan_open
      · exact hb.chan_inj
      · intro d m' ch' r hm' hr'
        simp only [Rule.mem_remove_iff, hrule]
        by_cases hdc : d = c
        · subst hdc
          simp [GoMap.set] at hm'
          subst hm'
          by_cases hch : ch' = ch
          · subst hch; simp [GoMap.delete] at hr'
          · simp [GoMap.delete, hch] at hr'
            have := hb.handle d m ch' r hm hr'
            exact ⟨this.1, this.2, fun h => hch h.1⟩
        · simp [GoMap.set, hdc] at hm'
          have := hb.handle d m' ch' r hm' hr'
          exact ⟨this.1, this.2, fun h => hdc h.2⟩

theorem step_inv (b : Broker) (op : Op) (hb : Inv b) :
    ∃ b', step b op = Except.ok b' ∧ Inv b' := by
  cases op with
  | register c => exact ⟨_, rfl, inv_register b c hb⟩
  | deregister c => exact deregister_inv b c hb
  | subscribe c ch => exact subscribe_inv b c ch hb
  | unsubscribe c ch => exact ⟨_, rfl, inv_unsubscribe b c ch hb⟩

theorem exec_inv (ops : List Op) (b : Broker) (hb : Inv b) :
    ∃ b', exec b ops = Except.ok b' ∧ Inv b' := by
  induction ops generalizing b with
  | nil => exact ⟨b, rfl, hb⟩
  | cons op ops ih =>
    obtain ⟨b1, h1, hi1⟩ := step_inv b op hb
    obtain ⟨b2, h2, hi2⟩ := ih b1 hi1
    exact ⟨b2, by simp [exec, h1, h2], hi2⟩

theorem reachable_inv (b : Broker) (hb : Reachable b) : Inv b := by
  obtain ⟨ops, hops⟩ := hb
  obtain ⟨b', h', hi⟩ := exec_inv ops newBroker inv_newBroker
  rw [h'] at hops
  cases hops
  exact hi

theorem reachable_step (b b' : Broker) (op : Op) (hb : Reachable b)
    (h : step b op = Except.ok b') : Reachable b' := by
  obtain ⟨ops, hops⟩ := hb
  refine ⟨ops ++ [op], ?_⟩
  have key : ∀ (l : List Op) (a a' : Broker), exec a l = Except.ok a' →
      exec a (l ++ [op]) = step a' op := by
    intro l
    induction l with
    | nil =>
      intro a a' ha
      simp only [exec] at ha
      cases ha
      simp only [List.nil_append, exec]
      cases step a op <;> rfl
    | cons o l ih =>
      intro a a' ha
      simp only [List.cons_append, exec] at ha ⊢
      cases hs : step a o with
      | error e => rw [hs] at ha; cases ha
      | ok a1 =>
        rw [hs] at ha
        exact ih a1 a' ha
  rw [key ops newBroker b hops, h]

theorem deregister_frame (b b' : Broker) (c : String)
    (h : deregister b c = Except.ok b') :
    b'.router = b.router ∧ b'.rules = b.rules.delete c ∧
      b'.clients = b.clients.delete c := by
  unfold deregister at h
  cases hd : b.clients c with
  | none =>
    simp only [hd, Except.ok.injEq] at h
    subst h
    exact ⟨rfl, rfl, (GoMap.delete_absent _ _ hd).symm⟩
  | some x =>
    simp only [hd] at h
    cases hcl : closeChan b.chans x with
    | error e => simp [hcl] at h
    | ok chans =>
      simp only [hcl, Except.ok.injEq] at h
      subst h
      exact ⟨rfl, rfl, rfl⟩

/-! ## Recorded handles along a sequence of calls -/

theorem handleOf_subscribed (b : Broker) (c ch : String) (m : GoMap Rule) :
    handleOf { b with
        router := (b.router.add ch c).2
        rules := b.rules.set c (m.set ch ⟨ch, c⟩) } c ch = some ⟨ch, c⟩ := by
  simp [handleOf, GoMap.set]

theorem step_handleOf_none (b b' : Broker) (op : Op) (c ch : String)
    (hn : handleOf b c ch = none) (hop : op ≠ Op.subscribe c ch)
    (hs : step b op = Except.ok b') : handleOf b' c ch = none := by
  cases op with
  | register d =>
    simp only [step, Except.ok.injEq] at hs
    subst hs
    cases hd : b.clients d with
    | some x => rw [register_of_present b d x hd]; exact hn
    | none =>
      rw [register_of_absent b d hd]
      by_cases hcd : c = d
      · subst hcd; simp [handleOf, GoMap.set, GoMap.empty]
      · simpa [handleOf, GoMap.set, hcd] using hn
  | deregister d =>
    simp only [step] at hs
    have hrules : b'.rules = b.rules.delete d := (deregister_frame b b' d hs).2.1
    by_cases hcd : c = d
    · subst hcd; simp [handleOf, hrules, GoMap.delete]
    · simpa [handleOf, hrules, GoMap.delete, hcd] using hn
  | subscribe d ch' =>
    simp only [step] at hs
    cases hd : hasClient b d with
    | false =>
      rw [subscribe_of_absent b d ch' hd] at hs
      cases hs; exact hn
    | true =>
      cases hm : b.rules d with
      | none => simp [subscribe, hd, hm] at hs
      | some m =>
        rw [subscribe_of_present b d ch' m hd hm] at hs
        cases hs
        by_cases hcd : c = d
        · subst hcd
          have hch : ch ≠ ch' := fun h => hop (by rw [h])
          simp only [handleOf, hm] at hn
          simpa [handleOf, GoMap.set, hch] using hn
        · simpa [handleOf, GoMap.set, hcd] using hn
  | unsubscribe d ch' =>
    simp only [step, Except.ok.injEq] at hs
    subst hs
    cases hd : hasClient b d with
    | false => rw [unsubscribe_of_absent b d ch' hd]; exact hn
    | true =>
      cases hm : b.rules d with
      | none =>
        rw [unsubscribe_of_no_handle b d ch' (by simp [handleOf, hm])]; exact hn
      | some m =>
        cases hr : m ch' with
        | none =>
          rw [unsubscribe_of_no_handle b d ch' (by simp [handleOf, hm, hr])]; exact hn
        | some rule =>
          rw [unsubscribe_of_handle b d ch' m rule hd hm hr]
          by_cases hcd : c = d
          · subst hcd
            simp only [handleOf, hm] at hn
            by_cases hch : ch = ch'
            · simp [handleOf, GoMap.set, GoMap.delete, hch]
            · simpa [handleOf, GoMap.set, GoMap.delete, hch] using hn
          · simpa [handleOf, GoMap.set, hcd] using hn

theorem exec_handleOf_none (ops : List Op) (b b' : Broker) (c ch : String)
    (hn : handleOf b c ch = none) (hops : ∀ op ∈ ops, op ≠ Op.subscribe c ch)
    (he : exec b ops = Except.ok b') : handleOf b' c ch = none := by
  induction ops generalizing b with
  | nil => simp only [exec] at he; cases he; exact hn
  | cons op ops ih =>
    simp only [exec] at he
    cases hs : step b op with
    | error e => rw [hs] at he; cases he
    | ok b1 =>
      rw [hs] at he
      exact ih b1 (step_handleOf_none b b1 op c ch hn (hops op (by simp)) hs)
        (fun o ho => hops o (by simp [ho])) he

theorem exec_subscribe_repeat (n : Nat) (b : Broker) (c ch : String) (hb : Inv b)
    (hc : hasClient b c = true) :
    ∃ b', exec b (List.replicate (n + 1) (Op.subscribe c ch)) = Except.ok b' ∧
      Inv b' ∧ hasClient b' c = true ∧ handleOf b' c ch = some ⟨ch, c⟩ := by
  induction n generalizing b with
  | zero =>
    obtain ⟨m, hm⟩ := rules_some_of_client b c hb hc
    refine ⟨_, ?_, inv_subscribe_present b c ch m hb hm, ?_, handleOf_subscribed b c ch m⟩
    · simp [exec, step, subscribe_of_present b c ch m hc hm]
    · exact hc
  | succ n ih =>
    obtain ⟨m, hm⟩ := rules_some_of_client b c hb hc
    obtain ⟨b', h', hi, hc', hh⟩ :=
      ih _ (inv_subscribe_present b c ch m hb hm) (show hasClient _ c = true from hc)
    refine ⟨b', ?_, hi, hc', hh⟩
    rw [List.replicate_succ]
    simp only [exec, step, subscribe_of_present b c ch m hc hm]
    exact h'

theorem unsubscribe_true_of_handle (b : Broker) (c ch : String) (rule : Rule)
    (hc : hasClient b c = true) (hh : handleOf b c ch = some rule) :
    (unsubscribe b c ch).1 = true ∧ handleOf (unsubscribe b c ch).2 c ch = none ∧
      hasClient (unsubscribe b c ch).2 c = true := by
  unfold handleOf at hh
  cases hm : b.rules c with
  | none => rw [hm] at hh; cases hh
  | some m =>
    rw [hm] at hh
    simp only at hh
    rw [unsubscribe_of_handle b c ch m rule hc hm hh]
    refine ⟨rfl, ?_, hc⟩
    simp [handleOf, GoMap.set, GoMap.delete]

/-! ## The Router's targets along a sequence of calls -/

theorem unsubscribe_true_handle (b : Broker) (c ch : String)
    (hu : (unsubscribe b c ch).1 = true) :
    ∃ m rule, hasClient b c = true ∧ b.rules c = some m ∧ m ch = some rule := by
  cases hc : hasClient b c with
  | false => rw [unsubscribe_of_absent b c ch hc] at hu; cases hu
  | true =>
    cases hm : b.rules c with
    | none =>
      rw [unsubscribe_of_no_handle b c ch (by simp [handleOf, hm])] at hu; cases hu
    | some m =>
      cases hr : m ch with
      | none =>
        rw [unsubscribe_of_no_handle b c ch (by simp [handleOf, hm, hr])] at hu; cases hu
      | some rule => exact ⟨m, rule, rfl, rfl, hr⟩

theorem unsubscribe_targets_subset (b : Broker) (c ch ch' x : String)
    (hx : x ∈ (unsubscribe b c ch).2.router.run ch') : x ∈ b.router.run ch' := by
  cases hc : hasClient b c with
  | false => rw [unsubscribe_of_absent b c ch hc] at hx; exact hx
  | true =>
    cases hm : b.rules c with
    | none =>
      rw [unsubscribe_of_no_handle b c ch (by simp [handleOf, hm])] at hx; exact hx
    | some m =>
      cases hr : m ch with
      | none =>
        rw [unsubscribe_of_no_handle b c ch (by simp [handleOf, hm, hr])] at hx; exact hx
      | some rule =>
        rw [unsubscribe_of_handle b c ch m rule hc hm hr] at hx
        exact ((Rule.mem_remove_iff rule b.router ch' x).mp hx).1

theorem step_not_target (b b' : Broker) (op : Op) (c ch : String)
    (hn : c ∉ b.router.run ch) (hop : op ≠ Op.subscribe c ch)
    (hs : step b op = Except.ok b') : c ∉ b'.router.run ch := by
  cases op with
  | register d =>
    simp only [step, Except.ok.injEq] at hs
    subst hs
    cases hd : b.clients d with
    | some x => rw [register_of_present b d x hd]; exact hn
    | none => rw [register_of_absent b d hd]; exact hn
  | deregister d =>
    simp only [step] at hs
    rw [(deregister_frame b b' d hs).1]; exact hn
  | subscribe d ch' =>
    simp only [step] at hs
    cases hd : hasClient b d with
    | false =>
      rw [subscribe_of_absent b d ch' hd] at hs
      cases hs; exact hn
    | true =>
      cases hm : b.rules d with
      | none => simp [subscribe, hd, hm] at hs
      | some m =>
        rw [subscribe_of_present b d ch' m hd hm] at hs
        cases hs
        intro hmem
        rcases (Router.mem_add_iff b.router ch' d ch c).mp hmem with h | ⟨h1, h2⟩
        · exact hn h
        · exact hop (by rw [h1, h2])
  | unsubscribe d ch' =>
    simp only [step, Except.ok.injEq] at hs
    subst hs
    exact fun hmem => hn (unsubscribe_targets_subset b d ch' ch c hmem)

theorem exec_not_target (ops : List Op) (b b' : Broker) (c ch : String)
    (hn : c ∉ b.router.run ch) (hops : ∀ op ∈ ops, op ≠ Op.subscribe c ch)
    (he : exec b ops = Except.ok b') : c ∉ b'.router.run ch := by
  induction ops generalizing b with
  | nil => simp only [exec] at he; cases he; exact hn
  | cons op ops ih =>
    simp only [exec] at he
    cases hs : step b op with
    | error e => rw [hs] at he; cases he
    | ok b1 =>
      rw [hs] at he
      exact ih b1 (step_not_target b b1 op c ch hn (hops op (by simp)) hs)
        (fun o ho => hops o (by simp [ho])) he

/-! ## Broadcast calls `send` only for the Router's targets -/

theorem broadcastLoop_attempted (b : Broker) (msg : Message) (ts : List String)
    (x : String) (hx : x ∈ (broadcastLoop b msg ts).attempted) : x ∈ ts := by
  induction ts with
  | nil => simp [broadcastLoop, Trace.attempted] at hx
  | cons t ts ih =>
    unfold broadcastLoop at hx
    cases hs : send b t msg with
    | sent ch =>
      rw [hs] at hx
      simp only [Trace.attempted, List.map_cons, List.cons_append, List.mem_cons] at hx
      rcases hx with h | h
      · simp [h]
      · exact List.mem_cons_of_mem _ (ih h)
    | blocksForever =>
      rw [hs] at hx
      simp [Trace.attempted] at hx
      simp [hx]
    | panics ch =>
      rw [hs] at hx
      simp [Trace.attempted] at hx
      simp [hx]

theorem broadcast_attempted (b : Broker) (ch p x : String)
    (hx : x ∈ (broadcast b ch p).attempted) : x ∈ b.router.run ch := by
  unfold broadcast at hx
  by_cases hl : (b.router.run ch).length > 0
  · simp only [hl, if_true] at hx
    exact broadcastLoop_attempted b _ _ x hx
  · simp [hl, Trace.attempted] at hx

theorem send_registered (b : Broker) (t : String) (x : Nat) (msg : Message) (hi : Inv b)
    (ht : b.clients t = some x) : send b t msg = SendResult.sent x := by
  simp [send, ht, hi.chan_open t x ht]

theorem broadcastLoop_registered (b : Broker) (msg : Message) (ts : List String)
    (hi : Inv b) (h : ∀ t ∈ ts, b.clients t ≠ none) :
    broadcastLoop b msg ts =
      ⟨ts.filterMap (fun t => (b.clients t).map (fun x => ⟨t, x, msg⟩)),
        Status.returned⟩ := by
  induction ts with
  | nil => rfl
  | cons t ts ih =>
    obtain ⟨x, hx⟩ := Option.ne_none_iff_exists'.mp (h t (by simp))
    have ih' := ih (fun u hu => h u (by simp [hu]))
    simp only [broadcastLoop, send_registered b t x msg hi hx, ih']
    simp [List.filterMap_cons, hx]

/-- Where every target of `ch` is registered, `broadcast(ch, p)` returns after
one send to each target, among them a client that has just subscribed. -/
theorem broadcast_delivers_of_registered_targets (b b' : Broker) (a ch p : String)
    (x : Nat) (hb : Reachable b) (ha : b.clients a = some x)
    (hs : subscribe b a ch = Except.ok b')
    (hall : ∀ t ∈ b'.router.run ch, b'.clients t ≠ none) :
    (⟨a, x, ⟨ch, p⟩⟩ : Delivery) ∈ (broadcast b' ch p).sends ∧
      (broadcast b' ch p).status = Status.returned := by
  have hi := reachable_inv b hb
  have hc : hasClient b a = true := by simp [hasClient, ha]
  obtain ⟨m, hm⟩ := rules_some_of_client b a hi hc
  rw [subscribe_of_present b a ch m hc hm] at hs
  cases hs
  have hi' := inv_subscribe_present b a ch m hi hm
  have hmem : a ∈ (b.router.add ch a).2.run ch :=
    (Router.mem_add_iff b.router ch a ch a).mpr (Or.inr ⟨rfl, rfl⟩)
  have hpos : ((b.router.add ch a).2.run ch).length > 0 := List.length_pos_of_mem hmem
  unfold broadcast
  simp only [hpos, if_true]
  rw [broadcastLoop_registered _ _ _ hi' hall]
  refine ⟨?_, rfl⟩
  simp only [List.mem_filterMap]
  exact ⟨a, hmem, by simp [ha]⟩

/-! ## The panics of the model are real

Outside the reachable states the two guarded operations do panic. -/

theorem subscribe_panics_on_nil_map :
    (subscribe { newBroker with clients := newBroker.clients.set "a" 0,
                                chans := [ChanState.opened] } "a" "/x").toOption.isNone
      = true := by
  decide

theorem deregister_panics_on_closed_channel :
    (deregister { newBroker with clients := newBroker.clients.set "a" 0,
                                 chans := [ChanState.closed] } "a").toOption.isNone
      = true := by
  decide

/-! ## C1: delivery -/

/-- C1, evaluated where it fails: client B subscribes to "/foo/bar" and is
deregistered, then client A registers and subscribes to "/foo/bar". The Router
still lists B before A, A is registered with open channel 1, and
`broadcast("/foo/bar", "ping")` blocks forever in the send for B (whose channel
is nil) without having sent anything on the channel of A. -/
theorem broadcast_blocks_before_subscriber :
    targetsAfter [Op.register "B", Op.subscribe "B" "/foo/bar", Op.deregister "B",
        Op.register "A", Op.subscribe "A" "/foo/bar"] "/foo/bar" = some ["B", "A"] ∧
    (stateAfter [Op.register "B", Op.subscribe "B" "/foo/bar", Op.deregister "B",
        Op.register "A", Op.subscribe "A" "/foo/bar"]).clients "A" = some 1 ∧
    (stateAfter [Op.register "B", Op.subscribe "B" "/foo/bar", Op.deregister "B",
        Op.register "A", Op.subscribe "A" "/foo/bar"]).clients "B" = none ∧
    broadcastAfter [Op.register "B", Op.subscribe "B" "/foo/bar", Op.deregister "B",
        Op.register "A", Op.subscribe "A" "/foo/bar"] "/foo/bar" "ping"
      = some ⟨[], Status.blocked "B"⟩ := by
  decide

/-! ## C2: the result of unsubscribe -/

/-- C2: `unsubscribe(c, ch)` returns false exactly when `c` is not registered
or no handle is recorded for `(c, ch)`; when it returns true, afterwards no
handle is recorded for `(c, ch)` and the handle recorded for `c` and any other
channel is the one recorded before. This holds in every broker state, so in
every reachable one. -/
theorem unsubscribe_result (b : Broker) (c ch : String) :
    ((unsubscribe b c ch).1 = false ↔ (hasClient b c = false ∨ handleOf b c ch = none)) ∧
    ((unsubscribe b c ch).1 = true →
      handleOf (unsubscribe b c ch).2 c ch = none ∧
      ∀ ch', ch' ≠ ch → handleOf (unsubscribe b c ch).2 c ch' = handleOf b c ch') := by
  cases hc : hasClient b c with
  | false =>
    rw [unsubscribe_of_absent b c ch hc]
    simp
  | true =>
    cases hm : b.rules c with
    | none =>
      have hh : handleOf b c ch = none := by simp [handleOf, hm]
      rw [unsubscribe_of_no_handle b c ch hh]
      simp [hh]
    | some m =>
      cases hr : m ch with
      | none =>
        have hh : handleOf b c ch = none := by simp [handleOf, hm, hr]
        rw [unsubscribe_of_no_handle b c ch hh]
        simp [hh]
      | some rule =>
        have hh : handleOf b c ch = some rule := by simp [handleOf, hm, hr]
        rw [unsubscribe_of_handle b c ch m rule hc hm hr]
        refine ⟨by simp [hh], fun _ => ⟨by simp [handleOf, GoMap.set, GoMap.delete], ?_⟩⟩
        intro ch' hne
        simp [handleOf, GoMap.set, GoMap.delete, hne, hm]

/-! ## C3: unsubscribe succeeds exactly once -/

/-- C3: let `b` be the state after the calls `ops` on a new broker, with `c`
registered in `b`. If `ops` holds no call `subscribe(c, ch)` then
`unsubscribe(c, ch)` returns false. After `n + 1` calls `subscribe(c, ch)`
(which complete), the first `unsubscribe(c, ch)` returns true and the one right
after it returns false. -/
theorem unsubscribe_exactly_once (ops : List Op) (b : Broker) (c ch : String) (n : Nat)
    (hb : exec newBroker ops = Except.ok b) (hc : hasClient b c = true) :
    ((∀ op ∈ ops, op ≠ Op.subscribe c ch) → (unsubscribe b c ch).1 = false) ∧
    ∃ b1, exec b (List.replicate (n + 1) (Op.subscribe c ch)) = Except.ok b1 ∧
      (unsubscribe b1 c ch).1 = true ∧
      (unsubscribe (unsubscribe b1 c ch).2 c ch).1 = false := by
  constructor
  · intro hops
    have hn : handleOf b c ch = none :=
      exec_handleOf_none ops newBroker b c ch (by simp [handleOf, newBroker, GoMap.empty])
        hops hb
    rw [unsubscribe_of_no_handle b c ch hn]
  · obtain ⟨b1, h1, _, hc1, hh1⟩ :=
      exec_subscribe_repeat n b c ch (reachable_inv b ⟨ops, hb⟩) hc
    obtain ⟨ht, hnone, _⟩ := unsubscribe_true_of_handle b1 c ch _ hc1 hh1
    refine ⟨b1, h1, ht, ?_⟩
    rw [unsubscribe_of_no_handle _ c ch hnone]

/-- C3 at a concrete input: client "c1" registered, channel "/foo/bar",
subscribed twice. -/
theorem unsubscribe_exactly_once_witness :
    ((∀ op ∈ [Op.register "c1"], op ≠ Op.subscribe "c1" "/foo/bar") →
      (unsubscribe (stateAfter [Op.register "c1"]) "c1" "/foo/bar").1 = false) ∧
    ∃ b1, exec (stateAfter [Op.register "c1"])
        (List.replicate (1 + 1) (Op.subscribe "c1" "/foo/bar")) = Except.ok b1 ∧
      (unsubscribe b1 "c1" "/foo/bar").1 = true ∧
      (unsubscribe (unsubscribe b1 "c1" "/foo/bar").2 "c1" "/foo/bar").1 = false :=
  unsubscribe_exactly_once [Op.register "c1"] (stateAfter [Op.register "c1"])
    "c1" "/foo/bar" 1 rfl rfl

/-! ## After unsubscribe, messages cease (one entry for a pair) -/

/-- Under the reading of the Router in which `add` keeps one entry for a pair
(`Router.add`): in a reachable state, once `unsubscribe(c, ch)` has returned true, `c`
is not among the Router's targets of `ch` and `broadcast(ch, p)` calls `send`
for `c` neither to completion nor to block or panic; the same holds after any
further calls that complete and hold no `subscribe(c, ch)`. -/
theorem unsubscribe_ceases (b : Broker) (c ch : String) (hb : Reachable b)
    (hu : (unsubscribe b c ch).1 = true) :
    c ∉ (unsubscribe b c ch).2.router.run ch ∧
    (∀ p, c ∉ (broadcast (unsubscribe b c ch).2 ch p).attempted) ∧
    ∀ ops b', (∀ op ∈ ops, op ≠ Op.subscribe c ch) →
      exec (unsubscribe b c ch).2 ops = Except.ok b' →
      c ∉ b'.router.run ch ∧ ∀ p, c ∉ (broadcast b' ch p).attempted := by
  have hi := reachable_inv b hb
  obtain ⟨m, rule, hc, hm, hr⟩ := unsubscribe_true_handle b c ch hu
  have hrule := (hi.handle c m ch rule hm hr).1
  have h0 : c ∉ (unsubscribe b c ch).2.router.run ch := by
    rw [unsubscribe_of_handle b c ch m rule hc hm hr]
    intro hmem
    have := ((Rule.mem_remove_iff rule b.router ch c).mp hmem).2
    exact this (by simp [hrule])
  refine ⟨h0, fun p hmem => h0 (broadcast_attempted _ ch p c hmem), ?_⟩
  intro ops b' hops he
  have h1 := exec_not_target ops _ b' c ch h0 hops he
  exact ⟨h1, fun p hmem => h1 (broadcast_attempted _ ch p c hmem)⟩

/-- The same at a concrete input: "c1" registered and subscribed twice to
"/foo/bar", over `Router.add`. -/
theorem unsubscribe_ceases_witness :
    (unsubscribe (stateAfter [Op.register "c1", Op.subscribe "c1" "/foo/bar",
        Op.subscribe "c1" "/foo/bar"]) "c1" "/foo/bar").1 = true ∧
    ("c1" ∉ (unsubscribe (stateAfter [Op.register "c1", Op.subscribe "c1" "/foo/bar",
        Op.subscribe "c1" "/foo/bar"]) "c1" "/foo/bar").2.router.run "/foo/bar" ∧
    (∀ p, "c1" ∉ (broadcast (unsubscribe (stateAfter [Op.register "c1",
        Op.subscribe "c1" "/foo/bar", Op.subscribe "c1" "/foo/bar"])
        "c1" "/foo/bar").2 "/foo/bar" p).attempted) ∧
    ∀ ops b', (∀ op ∈ ops, op ≠ Op.subscribe "c1" "/foo/bar") →
      exec (unsubscribe (stateAfter [Op.register "c1", Op.subscribe "c1" "/foo/bar",
        Op.subscribe "c1" "/foo/bar"]) "c1" "/foo/bar").2 ops = Except.ok b' →
      "c1" ∉ b'.router.run "/foo/bar" ∧
        ∀ p, "c1" ∉ (broadcast b' "/foo/bar" p).attempted) :=
  ⟨by decide,
    unsubscribe_ceases (stateAfter [Op.register "c1", Op.subscribe "c1" "/foo/bar",
      Op.subscribe "c1" "/foo/bar"]) "c1" "/foo/bar"
    ⟨[Op.register "c1", Op.subscribe "c1" "/foo/bar", Op.subscribe "c1" "/foo/bar"], rfl⟩
    (by decide)⟩

/-! ## C5: deregister and the Router -/

/-- C5, evaluated where it fails: client "c1" registers, subscribes to
"/foo/bar" and is deregistered. The Router still lists "c1" as a target of
"/foo/bar", and `broadcast("/foo/bar", "ping")` calls `send` for "c1", whose
channel is now nil, and blocks there forever. -/
theorem deregister_leaves_router_entry :
    targetsAfter [Op.register "c1", Op.subscribe "c1" "/foo/bar", Op.deregister "c1"]
        "/foo/bar" = some ["c1"] ∧
    broadcastAfter [Op.register "c1", Op.subscribe "c1" "/foo/bar", Op.deregister "c1"]
        "/foo/bar" "ping" = some ⟨[], Status.blocked "c1"⟩ := by
  decide

/-! ## C6: deregister closes the delivery channel -/

/-- C6: in a reachable state where `c` is registered with delivery channel `x`,
`deregister(c)` completes and leaves `c` unregistered (`hasClient` false, no
handle map for `c`) and `x` closed; a second `deregister(c)` completes and
leaves the state as it is, so it does not close `x` again. -/
theorem deregister_closes (b : Broker) (c : String) (x : Nat) (hb : Reachable b)
    (hx : b.clients c = some x) :
    ∃ b', deregister b c = Except.ok b' ∧ hasClient b' c = false ∧ b'.rules c = none ∧
      b'.chans[x]? = some ChanState.closed ∧ deregister b' c = Except.ok b' := by
  have hi := reachable_inv b hb
  have hopen := hi.chan_open c x hx
  have hlt : x < b.chans.length := by
    by_contra hge
    rw [List.getElem?_eq_none (Nat.le_of_not_lt hge)] at hopen
    exact absurd hopen (by simp)
  refine ⟨_, deregister_of_present b c x hi hx, ?_, ?_, ?_, ?_⟩
  · simp [hasClient, GoMap.delete]
  · simp [GoMap.delete]
  · simp [List.getElem?_set, hlt]
  · exact deregister_of_absent _ c (inv_deregister_present b c x hi hx)
      (by simp [GoMap.delete])

/-- C6 at a concrete input: "c1" registered on a new broker, its channel is 0. -/
theorem deregister_closes_witness :
    (stateAfter [Op.register "c1"]).clients "c1" = some 0 ∧
    ∃ b', deregister (stateAfter [Op.register "c1"]) "c1" = Except.ok b' ∧
      hasClient b' "c1" = false ∧ b'.rules "c1" = none ∧
      b'.chans[0]? = some ChanState.closed ∧ deregister b' "c1" = Except.ok b' :=
  ⟨rfl, deregister_closes (stateAfter [Op.register "c1"]) "c1" 0
    ⟨[Op.register "c1"], rfl⟩ rfl⟩

/-! ## C7: registration gating -/

/-- C7: in a reachable state where `c` is not registered, `subscribe(c, ch)`,
`unsubscribe(c, ch)` and `deregister(c)` each complete and leave the whole
state (registry, handle maps, Router index, state of every channel) as it is,
and `unsubscribe` returns false. -/
theorem unregistered_noop (b : Broker) (c ch : String) (hb : Reachable b)
    (hc : hasClient b c = false) :
    subscribe b c ch = Except.ok b ∧ unsubscribe b c ch = (false, b) ∧
      deregister b c = Except.ok b :=
  ⟨subscribe_of_absent b c ch hc, unsubscribe_of_absent b c ch hc,
    deregister_of_absent b c (reachable_inv b hb) ((hasClient_false_iff b c).mp hc)⟩

/-- C7 at a concrete input: the unknown client "invalid" after "c1" has
registered and subscribed. -/
theorem unregistered_noop_witness :
    hasClient (stateAfter [Op.register "c1", Op.subscribe "c1" "/foo/bar"]) "invalid"
      = false ∧
    subscribe (stateAfter [Op.register "c1", Op.subscribe "c1" "/foo/bar"])
      "invalid" "/foo/bar"
      = Except.ok (stateAfter [Op.register "c1", Op.subscribe "c1" "/foo/bar"]) ∧
    unsubscribe (stateAfter [Op.register "c1", Op.subscribe "c1" "/foo/bar"])
      "invalid" "/foo/bar"
      = (false, stateAfter [Op.register "c1", Op.subscribe "c1" "/foo/bar"]) ∧
    deregister (stateAfter [Op.register "c1", Op.subscribe "c1" "/foo/bar"]) "invalid"
      = Except.ok (stateAfter [Op.register "c1", Op.subscribe "c1" "/foo/bar"]) :=
  ⟨by decide,
    unregistered_noop (stateAfter [Op.register "c1", Op.subscribe "c1" "/foo/bar"])
      "invalid" "/foo/bar" ⟨[Op.register "c1", Op.subscribe "c1" "/foo/bar"], rfl⟩
      (by decide)⟩

/-! ## C8: register is idempotent -/

/-- C8: in every broker state, if `c` is not registered then `register(c)`
returns a channel that did not exist before (the channels that did are as
they were), which is open afterwards, and makes `c` registered with that channel and with an empty handle map; if `c` is
registered with channel `x` then `register(c)` returns `x` and leaves the state
as it is (the handles of `c` included). So a second `register(c)` right after
a first returns the same channel and changes nothing. -/
theorem register_idempotent (b : Broker) (c : String) :
    (b.clients c = none →
      b.chans[(register b c).1]? = none ∧
      (register b c).2.chans = b.chans ++ [ChanState.opened] ∧
      (register b c).2.chans[(register b c).1]? = some ChanState.opened ∧
      (register b c).2.clients c = some (register b c).1 ∧
      hasClient (register b c).2 c = true ∧
      (register b c).2.rules c = some GoMap.empty) ∧
    (∀ x, b.clients c = some x → register b c = (x, b)) ∧
    register (register b c).2 c = ((register b c).1, (register b c).2) := by
  refine ⟨?_, fun x hx => register_of_present b c x hx, ?_⟩
  · intro hc
    rw [register_of_absent b c hc]
    simp [hasClient, GoMap.set]
  · cases hc : b.clients c with
    | some x => simp [register_of_present b c x hc]
    | none =>
      rw [register_of_absent b c hc]
      exact register_of_present _ c _ (by simp [GoMap.set])

/-! ## C9: unsubscribe cancels only its own subscription -/

/-- C9: in a reachable state, let `c` and `d` be distinct clients with a handle
recorded for `ch` each (so both are registered), and let `c` have a handle
recorded for another channel `ch2`. After `unsubscribe(c, ch)`, `d` is a target
of `ch`, `c` is a target of `ch2`, the handle map of `d` is the one before, and
the handle of `c` for `ch2` is the one before. -/
theorem unsubscribe_only_own (b : Broker) (c d ch ch2 : String) (hb : Reachable b)
    (hcd : c ≠ d) (hch : ch2 ≠ ch) (hc : handleOf b c ch ≠ none)
    (hd : handleOf b d ch ≠ none) (hc2 : handleOf b c ch2 ≠ none) :
    d ∈ (unsubscribe b c ch).2.router.run ch ∧
    c ∈ (unsubscribe b c ch).2.router.run ch2 ∧
    (unsubscribe b c ch).2.rules d = b.rules d ∧
    handleOf (unsubscribe b c ch).2 c ch2 = handleOf b c ch2 := by
  have hi := reachable_inv b hb
  unfold handleOf at hc hd hc2
  cases hm : b.rules c with
  | none => rw [hm] at hc; exact absurd rfl hc
  | some m =>
    cases hmd : b.rules d with
    | none => rw [hmd] at hd; exact absurd rfl hd
    | some md =>
      rw [hm] at hc hc2
      rw [hmd] at hd
      simp only at hc hd hc2
      obtain ⟨r, hr⟩ := Option.ne_none_iff_exists'.mp hc
      obtain ⟨rd, hrd⟩ := Option.ne_none_iff_exists'.mp hd
      obtain ⟨r2, hr2⟩ := Option.ne_none_iff_exists'.mp hc2
      have hreg : hasClient b c = true := by
        cases hcl : b.clients c with
        | none =>
          have := (hi.rules_none c).mpr hcl
          rw [hm] at this
          exact absurd this (by simp)
        | some x => simp [hasClient, hcl]
      have hrule := (hi.handle c m ch r hm hr).1
      have htd := (hi.handle d md ch rd hmd hrd).2
      have htc := (hi.handle c m ch2 r2 hm hr2).2
      rw [unsubscribe_of_handle b c ch m r hreg hm hr]
      refine ⟨?_, ?_, ?_, ?_⟩
      · exact (Rule.mem_remove_iff r b.router ch d).mpr
          ⟨htd, fun h => hcd (by rw [h.2, hrule])⟩
      · exact (Rule.mem_remove_iff r b.router ch2 c).mpr
          ⟨htc, fun h => hch (by rw [h.1, hrule])⟩
      · simp [GoMap.set, Ne.symm hcd, hmd]
      · simp [handleOf, GoMap.set, GoMap.delete, hch, hm]

/-- C9 at a concrete input: "c1" subscribed to "/foo/bar" and "/baz", "c2"
subscribed to "/foo/bar"; "c1" unsubscribes from "/foo/bar". -/
theorem unsubscribe_only_own_witness :
    "c2" ∈ (unsubscribe (stateAfter [Op.register "c1", Op.register "c2",
        Op.subscribe "c1" "/foo/bar", Op.subscribe "c2" "/foo/bar",
        Op.subscribe "c1" "/baz"]) "c1" "/foo/bar").2.router.run "/foo/bar" ∧
    "c1" ∈ (unsubscribe (stateAfter [Op.register "c1", Op.register "c2",
        Op.subscribe "c1" "/foo/bar", Op.subscribe "c2" "/foo/bar",
        Op.subscribe "c1" "/baz"]) "c1" "/foo/bar").2.router.run "/baz" ∧
    (unsubscribe (stateAfter [Op.register "c1", Op.register "c2",
        Op.subscribe "c1" "/foo/bar", Op.subscribe "c2" "/foo/bar",
        Op.subscribe "c1" "/baz"]) "c1" "/foo/bar").2.rules "c2"
      = (stateAfter [Op.register "c1", Op.register "c2",
        Op.subscribe "c1" "/foo/bar", Op.subscribe "c2" "/foo/bar",
        Op.subscribe "c1" "/baz"]).rules "c2" ∧
    handleOf (unsubscribe (stateAfter [Op.register "c1", Op.register "c2",
        Op.subscribe "c1" "/foo/bar", Op.subscribe "c2" "/foo/bar",
        Op.subscribe "c1" "/baz"]) "c1" "/foo/bar").2 "c1" "/baz"
      = handleOf (stateAfter [Op.register "c1", Op.register "c2",
        Op.subscribe "c1" "/foo/bar", Op.subscribe "c2" "/foo/bar",
        Op.subscribe "c1" "/baz"]) "c1" "/baz" :=
  unsubscribe_only_own (stateAfter [Op.register "c1", Op.register "c2",
      Op.subscribe "c1" "/foo/bar", Op.subscribe "c2" "/foo/bar",
      Op.subscribe "c1" "/baz"]) "c1" "c2" "/foo/bar" "/baz"
    ⟨[Op.register "c1", Op.register "c2", Op.subscribe "c1" "/foo/bar",
      Op.subscribe "c2" "/foo/bar", Op.subscribe "c1" "/baz"], rfl⟩
    (by decide) (by decide) (by decide) (by decide) (by decide)

/-! ## C10: no panic -/

/-- C10: in every state reachable from `newBroker()` by `register`,
`deregister`, `subscribe` and `unsubscribe` calls with any strings, each of the
four operations completes without a panic, and so does every further sequence
of them; there a registered client has a
handle map (so `subscribe` does not write into a nil map), `unsubscribe`
removes nothing where no handle is recorded, and a registered delivery channel
is open (so `deregister` closes no channel twice). -/
theorem no_panic (b : Broker) (op : Op) (hb : Reachable b) :
    (∃ b', step b op = Except.ok b') ∧
    (∀ ops : List Op, ∃ b', exec b ops = Except.ok b') ∧
    (∀ c, hasClient b c = true → b.rules c ≠ none) ∧
    (∀ c ch, handleOf b c ch = none → unsubscribe b c ch = (false, b)) ∧
    (∀ c x, b.clients c = some x → b.chans[x]? = some ChanState.opened) := by
  have hi := reachable_inv b hb
  refine ⟨?_, ?_, ?_, fun c ch h => unsubscribe_of_no_handle b c ch h, hi.chan_open⟩
  · obtain ⟨b', h, _⟩ := step_inv b op hi
    exact ⟨b', h⟩
  · intro ops
    obtain ⟨b', h, _⟩ := exec_inv ops b hi
    exact ⟨b', h⟩
  · intro c hc
    obtain ⟨m, hm⟩ := rules_some_of_client b c hi hc
    simp [hm]

/-- C10 at a concrete input: a repeated `deregister("c1")` after "c1" was
registered, subscribed and deregistered. -/
theorem no_panic_witness :
    (∃ b', step (stateAfter [Op.register "c1", Op.subscribe "c1" "/foo/bar",
        Op.deregister "c1"]) (Op.deregister "c1") = Except.ok b') ∧
    (∀ ops : List Op, ∃ b', exec (stateAfter [Op.register "c1",
        Op.subscribe "c1" "/foo/bar", Op.deregister "c1"]) ops = Except.ok b') ∧
    (∀ c, hasClient (stateAfter [Op.register "c1", Op.subscribe "c1" "/foo/bar",
        Op.deregister "c1"]) c = true →
      (stateAfter [Op.register "c1", Op.subscribe "c1" "/foo/bar",
        Op.deregister "c1"]).rules c ≠ none) ∧
    (∀ c ch, handleOf (stateAfter [Op.register "c1", Op.subscribe "c1" "/foo/bar",
        Op.deregister "c1"]) c ch = none →
      unsubscribe (stateAfter [Op.register "c1", Op.subscribe "c1" "/foo/bar",
        Op.deregister "c1"]) c ch
        = (false, stateAfter [Op.register "c1", Op.subscribe "c1" "/foo/bar",
            Op.deregister "c1"])) ∧
    (∀ c x, (stateAfter [Op.register "c1", Op.subscribe "c1" "/foo/bar",
        Op.deregister "c1"]).clients c = some x →
      (stateAfter [Op.register "c1", Op.subscribe "c1" "/foo/bar",
        Op.deregister "c1"]).chans[x]? = some ChanState.opened) :=
  no_panic (stateAfter [Op.register "c1", Op.subscribe "c1" "/foo/bar",
      Op.deregister "c1"]) (Op.deregister "c1")
    ⟨[Op.register "c1", Op.subscribe "c1" "/foo/bar", Op.deregister "c1"], rfl⟩

/-! ## Locks held along the events of a call -/

theorem checkEvents_sound (ok : Held → Event → Bool) (tr : List Event) (h : Held)
    (hc : checkEvents ok h tr = true) (pre : List Event) (e : Event) (post : List Event)
    (htr : tr = pre ++ e :: post) : ok (pre.foldl Held.after h) e = true := by
  induction pre generalizing h tr with
  | nil =>
    subst htr
    simp only [List.nil_append, checkEvents, Bool.and_eq_true] at hc
    exact hc.1
  | cons a pre ih =>
    subst htr
    simp only [List.cons_append, checkEvents, Bool.and_eq_true] at hc
    exact ih _ (h.after a) hc.2 rfl

theorem sendsOutsideLock_of_check (tr : List Event)
    (hc : checkEvents (fun h e => !e.isSend || !h.locked) ⟨0, 0⟩ tr = true) :
    SendsOutsideLock tr := by
  intro pre e post htr hsend
  have := checkEvents_sound _ tr ⟨0, 0⟩ hc pre e post htr
  simpa [heldAfter, hsend] using this

theorem routerCallsUnderLock_of_check (tr : List Event)
    (hc : checkEvents (fun h e => !e.isRouterCall || h.locked) ⟨0, 0⟩ tr = true) :
    RouterCallsUnderLock tr := by
  intro pre e post htr hcall
  have := checkEvents_sound _ tr ⟨0, 0⟩ hc pre e post htr
  simpa [heldAfter, hcall] using this

theorem routerCallsUnderWriteLock_of_check (tr : List Event)
    (hc : checkEvents (fun h e => !e.isRouterCall || decide (h = ⟨0, 1⟩)) ⟨0, 0⟩ tr
      = true) :
    RouterCallsUnderWriteLock tr := by
  intro pre e post htr hcall
  have := checkEvents_sound _ tr ⟨0, 0⟩ hc pre e post htr
  simpa [heldAfter, hcall] using this

theorem routerCallsOutsideLock_of_check (tr : List Event)
    (hc : checkEvents (fun h e => !e.isRouterCall || !h.locked) ⟨0, 0⟩ tr = true) :
    RouterCallsOutsideLock tr := by
  intro pre e post htr hcall
  have := checkEvents_sound _ tr ⟨0, 0⟩ hc pre e post htr
  simpa [heldAfter, hcall] using this

theorem broadcastLoopEvents_sends_check (b : Broker) (msg : Message) (ts : List String) :
    checkEvents (fun h e => !e.isSend || !h.locked) ⟨0, 0⟩
      (broadcastLoopEvents b msg ts) = true := by
  induction ts with
  | nil => rfl
  | cons t ts ih =>
    cases hs : send b t msg with
    | sent ch =>
      simpa [broadcastLoopEvents, sendEvents, hs, checkEvents, Held.after, Held.locked,
        Event.isSend] using ih
    | blocksForever =>
      simp [broadcastLoopEvents, sendEvents, hs, checkEvents, Held.after, Held.locked,
        Event.isSend]
    | panics ch =>
      simp [broadcastLoopEvents, sendEvents, hs, checkEvents, Held.after, Held.locked,
        Event.isSend]

theorem broadcastLoopEvents_router_check (b : Broker) (msg : Message) (ts : List String) :
    checkEvents (fun h e => !e.isRouterCall || !h.locked) ⟨0, 0⟩
      (broadcastLoopEvents b msg ts) = true := by
  induction ts with
  | nil => rfl
  | cons t ts ih =>
    cases hs : send b t msg with
    | sent ch =>
      simpa [broadcastLoopEvents, sendEvents, hs, checkEvents, Held.after, Held.locked,
        Event.isRouterCall] using ih
    | blocksForever =>
      simp [broadcastLoopEvents, sendEvents, hs, checkEvents, Held.after, Held.locked,
        Event.isRouterCall]
    | panics ch =>
      simp [broadcastLoopEvents, sendEvents, hs, checkEvents, Held.after, Held.locked,
        Event.isRouterCall]

/-- The channel sends among the events of the loop are the sends of its trace. -/
theorem broadcastLoopEvents_sendTargets (b : Broker) (msg : Message) (ts : List String) :
    (broadcastLoopEvents b msg ts).filterMap Event.sendTarget
      = (broadcastLoop b msg ts).attempted := by
  induction ts with
  | nil => rfl
  | cons t ts ih =>
    cases hs : send b t msg with
    | sent ch =>
      simp only [broadcastLoopEvents, broadcastLoop, sendEvents, hs, Trace.attempted,
        List.map_cons, List.cons_append] at ih ⊢
      simp [List.filterMap_cons, Event.sendTarget, ih]
    | blocksForever =>
      simp [broadcastLoopEvents, broadcastLoop, sendEvents, hs, Trace.attempted,
        List.filterMap_cons, Event.sendTarget]
    | panics ch =>
      simp [broadcastLoopEvents, broadcastLoop, sendEvents, hs, Trace.attempted,
        List.filterMap_cons, Event.sendTarget]

/-- The channel sends among the events of `broadcast` are the sends of its trace. -/
theorem broadcastEvents_sendTargets (b : Broker) (ch p : String) :
    (broadcastEvents b ch p).filterMap Event.sendTarget = (broadcast b ch p).attempted := by
  unfold broadcastEvents broadcast
  by_cases hl : (b.router.run ch).length > 0
  · simp only [hl, if_true, List.filterMap_cons, Event.sendTarget]
    exact broadcastLoopEvents_sendTargets b _ _
  · simp [hl, List.filterMap_cons, Event.sendTarget, Trace.attempted]

/-! ## C11: no lock is held across a delivery send -/

/-- C11: in the events of every `Broker.send` and of every `Broker.broadcast`,
each channel send `ch <- msg` happens at a point where the call holds neither
the read lock nor the write lock; `send` does make its channel send. -/
theorem send_outside_lock (b : Broker) (client channel p : String) (msg : Message) :
    SendsOutsideLock (sendEvents client msg) ∧
    SendsOutsideLock (broadcastEvents b channel p) ∧
    Event.chanSend client msg ∈ sendEvents client msg := by
  refine ⟨sendsOutsideLock_of_check _ (by rfl), sendsOutsideLock_of_check _ ?_,
    by simp [sendEvents]⟩
  unfold broadcastEvents
  by_cases hl : (b.router.run channel).length > 0
  · simp only [hl, if_true, checkEvents, Event.isSend, Held.after, Bool.not_false,
      Bool.true_or, Bool.true_and]
    exact broadcastLoopEvents_sends_check b _ _
  · simp [hl, checkEvents, Event.isSend]

/-! ## C12: the Router calls and the Broker's lock -/

/-- C12 fails for `subscribe`: for the registered client "c1" the call
`b.router.add` happens after `hasClient` has released the read lock and before
`Lock`, so not every call into the Router happens under the Broker's lock. -/
theorem subscribe_adds_outside_lock :
    ¬ RouterCallsUnderLock
        (subscribeEvents (stateAfter [Op.register "c1"]) "c1" "/foo/bar") := by
  intro h
  have := h [Event.rlock, Event.runlock] (Event.routerAdd "/foo/bar" "c1")
    [Event.lock, Event.unlock] (by decide) rfl
  revert this
  decide

/-- C12 as amended: of the calls into the Router only `rule.remove()` in
`unsubscribe` happens while the call holds the Broker's lock, and the lock it
holds there is the write lock (taken once, with no read lock held).
`b.router.add` in `subscribe` happens while the call holds no lock, after
`hasClient` has released the read lock and before `Lock`: the events of
`subscribe` for a registered client are `RLock`, `RUnlock`, `add`, `Lock`,
`Unlock`, in this order. `b.router.run` is the first event of `broadcast` and
happens while the call holds no lock. Each of the three calls is made: `remove`
when the client is registered and a handle is recorded, `add` when the client
is registered, `run` always. -/
theorem router_calls_and_lock (b : Broker) (c ch p : String) :
    RouterCallsUnderLock (unsubscribeEvents b c ch) ∧
    RouterCallsUnderWriteLock (unsubscribeEvents b c ch) ∧
    RouterCallsOutsideLock (subscribeEvents b c ch) ∧
    (hasClient b c = true →
      subscribeEvents b c ch =
        [Event.rlock, Event.runlock, Event.routerAdd ch c, Event.lock, Event.unlock]) ∧
    RouterCallsOutsideLock (broadcastEvents b ch p) ∧
    (broadcastEvents b ch p).head? = some (Event.routerRun ch) ∧
    (∀ rule, hasClient b c = true → handleOf b c ch = some rule →
      Event.routerRemove rule ∈ unsubscribeEvents b c ch) ∧
    (hasClient b c = true → Event.routerAdd ch c ∈ subscribeEvents b c ch) ∧
    Event.routerRun ch ∈ broadcastEvents b ch p := by
  refine ⟨routerCallsUnderLock_of_check _ ?_, routerCallsUnderWriteLock_of_check _ ?_,
    routerCallsOutsideLock_of_check _ ?_, ?_, routerCallsOutsideLock_of_check _ ?_,
    ?_, ?_, ?_, ?_⟩
  · unfold unsubscribeEvents hasClientEvents
    cases hc : hasClient b c with
    | false => simp [checkEvents, Event.isRouterCall]
    | true =>
      cases hh : handleOf b c ch with
      | none => simp [checkEvents, Event.isRouterCall]
      | some rule =>
        simp [checkEvents, Event.isRouterCall, Held.after, Held.locked]
  · unfold unsubscribeEvents hasClientEvents
    cases hc : hasClient b c with
    | false => simp [checkEvents, Event.isRouterCall]
    | true =>
      cases hh : handleOf b c ch with
      | none => simp [checkEvents, Event.isRouterCall]
      | some rule =>
        simp [checkEvents, Event.isRouterCall, Held.after]
  · unfold subscribeEvents hasClientEvents
    cases hc : hasClient b c with
    | false => simp [checkEvents, Event.isRouterCall]
    | true => simp [checkEvents, Event.isRouterCall, Held.after, Held.locked]
  · intro hc
    simp [subscribeEvents, hasClientEvents, hc]
  · unfold broadcastEvents
    by_cases hl : (b.router.run ch).length > 0
    · simp only [hl, if_true, checkEvents, Event.isRouterCall, Held.after, Held.locked,
        lt_self_iff_false, decide_False, Bool.or_self, Bool.not_false, Bool.or_true,
        Bool.true_and]
      exact broadcastLoopEvents_router_check b _ _
    · simp [hl, checkEvents, Event.isRouterCall, Held.locked]
  · simp [broadcastEvents]
  · intro rule hc hh
    simp [unsubscribeEvents, hc, hh]
  · intro hc
    simp [subscribeEvents, hc]
  · simp [broadcastEvents]

/-! ## C15: the sends of a broadcast -/

theorem broadcast_no_targets (b : Broker) (ch p : String) (h : b.router.run ch = []) :
    broadcast b ch p = ⟨[], Status.returned⟩ := by
  simp [broadcast, h]

theorem broadcast_registered (b : Broker) (ch p : String) (hi : Inv b)
    (hall : ∀ t ∈ b.router.run ch, b.clients t ≠ none) :
    broadcast b ch p =
      ⟨(b.router.run ch).filterMap
          (fun t => (b.clients t).map (fun x => ⟨t, x, ⟨ch, p⟩⟩)),
        Status.returned⟩ := by
  unfold broadcast
  by_cases hl : (b.router.run ch).length > 0
  · simp only [hl, if_true]
    exact broadcastLoop_registered b _ _ hi hall
  · have : b.router.run ch = [] := by
      cases hr : b.router.run ch with
      | nil => rfl
      | cons t ts => rw [hr] at hl; simp at hl
    simp [this]

/-- C15, evaluated where it fails: clients "a" and "b" register and subscribe
to "/news", then "a" is deregistered. The Router's targets of "/news" are still
"a" and "b", "b" is registered, and `broadcast("/news", "hi")` completes no
send at all: it blocks forever in the send for "a", whose channel is nil, so
the target "b" gets no send. -/
theorem broadcast_misses_target_behind_stale :
    targetsAfter [Op.register "a", Op.register "b", Op.subscribe "a" "/news",
        Op.subscribe "b" "/news", Op.deregister "a"] "/news" = some ["a", "b"] ∧
    hasClient (stateAfter [Op.register "a", Op.register "b", Op.subscribe "a" "/news",
        Op.subscribe "b" "/news", Op.deregister "a"]) "b" = true ∧
    (broadcastAfter [Op.register "a", Op.register "b", Op.subscribe "a" "/news",
        Op.subscribe "b" "/news", Op.deregister "a"] "/news" "hi").map
      (fun t => (t.sends.length, t.status)) = some (0, Status.blocked "a") := by
  decide

/-! ## C16: the Router index and the recorded handles -/

/-- In a reachable state a recorded handle has its client registered and among
the Router's targets of its channel. -/
theorem handle_is_target (b : Broker) (c ch : String) (hb : Reachable b)
    (hh : handleOf b c ch ≠ none) : hasClient b c = true ∧ c ∈ b.router.run ch := by
  have hi := reachable_inv b hb
  unfold handleOf at hh
  cases hm : b.rules c with
  | none => rw [hm] at hh; exact absurd rfl hh
  | some m =>
    rw [hm] at hh
    simp only at hh
    obtain ⟨r, hr⟩ := Option.ne_none_iff_exists'.mp hh
    refine ⟨?_, (hi.handle c m ch r hm hr).2⟩
    cases hcl : b.clients c with
    | none =>
      have := (hi.rules_none c).mpr hcl
      rw [hm] at this
      exact absurd this (by simp)
    | some x => simp [hasClient, hcl]

/-- C16, evaluated where it fails: "c1" registers, subscribes twice to
"/foo/bar" and is deregistered. The Router's set of "/foo/bar" still holds
"c1", while "c1" is not registered and no handle is recorded for the pair. -/
theorem router_entry_without_handle :
    targetsAfter [Op.register "c1", Op.subscribe "c1" "/foo/bar",
        Op.subscribe "c1" "/foo/bar", Op.deregister "c1"] "/foo/bar" = some ["c1"] ∧
    hasClient (stateAfter [Op.register "c1", Op.subscribe "c1" "/foo/bar",
        Op.subscribe "c1" "/foo/bar", Op.deregister "c1"]) "c1" = false ∧
    handleOf (stateAfter [Op.register "c1", Op.subscribe "c1" "/foo/bar",
        Op.subscribe "c1" "/foo/bar", Op.deregister "c1"]) "c1" "/foo/bar" = none := by
  decide

/-! ## C17: registry consistency -/

theorem run_inv (calls : List Call) (b b' : Broker) (hb : Inv b)
    (h : run b calls = some b') : Inv b' := by
  induction calls generalizing b with
  | nil => simp only [run, Option.some.injEq] at h; subst h; exact hb
  | cons c cs ih =>
    cases c with
    | op o =>
      obtain ⟨b1, h1, hi1⟩ := step_inv b o hb
      simp only [run, h1] at h
      exact ih b1 hi1 h
    | broadcast ch p =>
      simp only [run] at h
      by_cases hs : (broadcast b ch p).status = Status.returned
      · rw [if_pos hs] at h
        exact ih b hb h
      · rw [if_neg hs] at h
        cases h

/-- C17: in every state reached from `newBroker()` by a sequence of `register`,
`deregister`, `subscribe`, `unsubscribe` and `broadcast` calls, a client has a
delivery channel exactly when it has a handle map, and every delivery channel
in the registry is open. -/
theorem registry_consistent (calls : List Call) (b : Broker)
    (h : run newBroker calls = some b) :
    (∀ c, (b.clients c).isSome = (b.rules c).isSome) ∧
    (∀ c x, b.clients c = some x → b.chans[x]? = some ChanState.opened) := by
  have hi := run_inv calls newBroker b inv_newBroker h
  refine ⟨?_, hi.chan_open⟩
  intro c
  have := hi.rules_none c
  cases hc : b.clients c <;> cases hr : b.rules c <;> simp_all

/-- C17 at a concrete input: register, subscribe, a broadcast that returns,
deregister. -/
theorem registry_consistent_witness :
    (∀ c, ((stateAfter [Op.register "c1", Op.subscribe "c1" "/foo/bar",
        Op.deregister "c1"]).clients c).isSome
      = ((stateAfter [Op.register "c1", Op.subscribe "c1" "/foo/bar",
        Op.deregister "c1"]).rules c).isSome) ∧
    (∀ c x, (stateAfter [Op.register "c1", Op.subscribe "c1" "/foo/bar",
        Op.deregister "c1"]).clients c = some x →
      (stateAfter [Op.register "c1", Op.subscribe "c1" "/foo/bar",
        Op.deregister "c1"]).chans[x]? = some ChanState.opened) :=
  registry_consistent
    [Call.op (Op.register "c1"), Call.op (Op.subscribe "c1" "/foo/bar"),
      Call.broadcast "/foo/bar" "ping", Call.op (Op.deregister "c1")]
    (stateAfter [Op.register "c1", Op.subscribe "c1" "/foo/bar", Op.deregister "c1"])
    rfl

/-! ## C18: operations on one client leave the others alone -/

/-- C18: in a reachable state and for distinct clients `c` and `d`,
`register(c)` and `deregister(c)` (which completes) leave the registration of
`d`, its delivery channel, the open or closed state of that channel and the
handle map of `d` as they are. -/
theorem other_client_untouched (b : Broker) (c d : String) (hb : Reachable b)
    (hcd : c ≠ d) :
    (hasClient (register b c).2 d = hasClient b d ∧
      (register b c).2.clients d = b.clients d ∧
      (∀ x, b.clients d = some x → (register b c).2.chans[x]? = b.chans[x]?) ∧
      (register b c).2.rules d = b.rules d) ∧
    ∃ b', deregister b c = Except.ok b' ∧
      hasClient b' d = hasClient b d ∧
      b'.clients d = b.clients d ∧
      (∀ x, b.clients d = some x → b'.chans[x]? = b.chans[x]?) ∧
      b'.rules d = b.rules d := by
  have hi := reachable_inv b hb
  have hdc : d ≠ c := Ne.symm hcd
  have hlt : ∀ x, b.clients d = some x → x < b.chans.length := by
    intro x hd
    have := hi.chan_open d x hd
    by_contra hge
    rw [List.getElem?_eq_none (Nat.le_of_not_lt hge)] at this
    exact absurd this (by simp)
  constructor
  · cases hc : b.clients c with
    | some y =>
      rw [register_of_present b c y hc]
      exact ⟨rfl, rfl, fun _ _ => rfl, rfl⟩
    | none =>
      rw [register_of_absent b c hc]
      refine ⟨by simp [hasClient, GoMap.set, hdc], by simp [GoMap.set, hdc], ?_,
        by simp [GoMap.set, hdc]⟩
      intro x hd
      exact List.getElem?_append_left (hlt x hd)
  · cases hc : b.clients c with
    | none =>
      exact ⟨b, deregister_of_absent b c hi hc, rfl, rfl, fun _ _ => rfl, rfl⟩
    | some y =>
      refine ⟨_, deregister_of_present b c y hi hc, by simp [hasClient, GoMap.delete, hdc],
        by simp [GoMap.delete, hdc], ?_, by simp [GoMap.delete, hdc]⟩
      intro x hd
      have hne : y ≠ x := by
        intro hyx
        subst hyx
        exact hcd (hi.chan_inj c d y hc hd)
      exact List.getElem?_set_ne hne

/-- C18 at a concrete input: "c1" and "c2" registered, "c2" subscribed. -/
theorem other_client_untouched_witness :
    (hasClient (register (stateAfter [Op.register "c1", Op.register "c2",
          Op.subscribe "c2" "/foo/bar"]) "c1").2 "c2"
        = hasClient (stateAfter [Op.register "c1", Op.register "c2",
          Op.subscribe "c2" "/foo/bar"]) "c2" ∧
      (register (stateAfter [Op.register "c1", Op.register "c2",
          Op.subscribe "c2" "/foo/bar"]) "c1").2.clients "c2"
        = (stateAfter [Op.register "c1", Op.register "c2",
          Op.subscribe "c2" "/foo/bar"]).clients "c2" ∧
      (∀ x, (stateAfter [Op.register "c1", Op.register "c2",
          Op.subscribe "c2" "/foo/bar"]).clients "c2" = some x →
        (register (stateAfter [Op.register "c1", Op.register "c2",
          Op.subscribe "c2" "/foo/bar"]) "c1").2.chans[x]?
        = (stateAfter [Op.register "c1", Op.register "c2",
          Op.subscribe "c2" "/foo/bar"]).chans[x]?) ∧
      (register (stateAfter [Op.register "c1", Op.register "c2",
          Op.subscribe "c2" "/foo/bar"]) "c1").2.rules "c2"
        = (stateAfter [Op.register "c1", Op.register "c2",
          Op.subscribe "c2" "/foo/bar"]).rules "c2") ∧
    ∃ b', deregister (stateAfter [Op.register "c1", Op.register "c2",
          Op.subscribe "c2" "/foo/bar"]) "c1" = Except.ok b' ∧
      hasClient b' "c2" = hasClient (stateAfter [Op.register "c1", Op.register "c2",
          Op.subscribe "c2" "/foo/bar"]) "c2" ∧
      b'.clients "c2" = (stateAfter [Op.register "c1", Op.register "c2",
          Op.subscribe "c2" "/foo/bar"]).clients "c2" ∧
      (∀ x, (stateAfter [Op.register "c1", Op.register "c2",
          Op.subscribe "c2" "/foo/bar"]).clients "c2" = some x →
        b'.chans[x]? = (stateAfter [Op.register "c1", Op.register "c2",
          Op.subscribe "c2" "/foo/bar"]).chans[x]?) ∧
      b'.rules "c2" = (stateAfter [Op.register "c1", Op.register "c2",
          Op.subscribe "c2" "/foo/bar"]).rules "c2" :=
  other_client_untouched (stateAfter [Op.register "c1", Op.register "c2",
      Op.subscribe "c2" "/foo/bar"]) "c1" "c2"
    ⟨[Op.register "c1", Op.register "c2", Op.subscribe "c2" "/foo/bar"], rfl⟩
    (by decide)

/-! ## C19: the rendering of a message -/

theorem message_format_chars :
    "@%v: %v".data = ['@', '%', 'v', ':', ' ', '%', 'v'] := rfl

/-- C19: for every message, `String()` is "@", the channel, ": " and the data,
in this order, whatever the two strings are (the empty string included); it
is a function of the message alone and returns a new string. -/
theorem message_string (msg : Message) :
    msg.String = "@" ++ msg.channel ++ ": " ++ msg.data ∧
    msg.String.length = msg.channel.length + msg.data.length + 3 ∧
    Message.String ⟨"", ""⟩ = "@: " := by
  have h : msg.String = "@" ++ msg.channel ++ ": " ++ msg.data := by
    unfold Message.String Sprintf
    rw [message_format_chars]
    apply String.ext
    simp [sprintfChars, String.data_append]
  refine ⟨h, ?_, by decide⟩
  rw [h]
  have h1 : "@".length = 1 := by decide
  have h2 : ": ".length = 2 := by decide
  simp only [String.length_append, h1, h2]
  omega

/-! ## C13: handshake issues distinct client IDs -/

theorem toDigitsCore_append (fuel n : Nat) (ds : List Char) :
    Nat.toDigitsCore 10 fuel n ds = Nat.toDigitsCore 10 fuel n [] ++ ds := by
  induction fuel generalizing n ds with
  | zero => simp [Nat.toDigitsCore]
  | succ fuel ih =>
    simp only [Nat.toDigitsCore]
    by_cases h : n / 10 = 0
    · simp [h]
    · simp only [h, if_false]
      rw [ih (n / 10) (Nat.digitChar (n % 10) :: ds), ih (n / 10) [Nat.digitChar (n % 10)]]
      simp

theorem digitsValue_append (cs : List Char) (c : Char) :
    digitsValue (cs ++ [c]) = 10 * digitsValue cs + (c.toNat - 48) := by
  simp [digitsValue, List.foldl_append]

theorem digitChar_value (d : Nat) (h : d < 10) : (Nat.digitChar d).toNat - 48 = d := by
  interval_cases d <;> rfl

theorem digitsValue_toDigitsCore (fuel n : Nat) (h : n < fuel) :
    digitsValue (Nat.toDigitsCore 10 fuel n []) = n := by
  induction fuel generalizing n with
  | zero => omega
  | succ fuel ih =>
    simp only [Nat.toDigitsCore]
    by_cases h0 : n / 10 = 0
    · simp only [h0, if_true]
      have hn : n < 10 := by omega
      have := digitChar_value (n % 10) (Nat.mod_lt _ (by decide))
      simp only [digitsValue, List.foldl_cons, List.foldl_nil, Nat.mul_zero, Nat.zero_add]
      rw [this]
      exact Nat.mod_eq_of_lt hn
    · simp only [h0, if_false]
      rw [toDigitsCore_append, digitsValue_append, ih (n / 10) (by omega),
        digitChar_value (n % 10) (Nat.mod_lt _ (by decide))]
      omega

theorem toString_nat_injective (a b : Nat) (h : toString a = toString b) : a = b := by
  have h1 : Nat.toDigits 10 a = Nat.toDigits 10 b := by
    have : (Nat.toDigits 10 a).asString = (Nat.toDigits 10 b).asString := h
    exact congrArg String.data this
  have ha := digitsValue_toDigitsCore (a + 1) a (Nat.lt_succ_self a)
  have hb := digitsValue_toDigitsCore (b + 1) b (Nat.lt_succ_self b)
  unfold Nat.toDigits at h1
  rw [h1] at ha
  omega

theorem salted_id_injective (salt : String) (a b : Nat)
    (h : salt ++ toString a = salt ++ toString b) : a = b := by
  apply toString_nat_injective
  have := congrArg String.data h
  simp only [String.data_append, List.append_cancel_left_eq] at this
  exact String.ext this

theorem register_hasClient_self (b : Broker) (c : String) :
    hasClient (register b c).2 c = true := by
  cases hc : b.clients c with
  | some x => rw [register_of_present b c x hc]; simp [hasClient, hc]
  | none => rw [register_of_absent b c hc]; simp [hasClient, GoMap.set]

theorem register_hasClient_mono (b : Broker) (c d : String) (h : hasClient b d = true) :
    hasClient (register b c).2 d = true := by
  cases hc : b.clients c with
  | some x => rw [register_of_present b c x hc]; exact h
  | none =>
    rw [register_of_absent b c hc]
    by_cases hd : d = c
    · simp [hasClient, GoMap.set, hd]
    · simpa [hasClient, GoMap.set, hd] using h

theorem handshakes_spec (n : Nat) (s : Server) :
    ∃ s', handshakes n s = Except.ok
        ((List.range n).map (fun k => s.salt ++ toString (s.counter + k)), s') ∧
      s'.salt = s.salt ∧
      (∀ d, hasClient s.broker d = true → hasClient s'.broker d = true) ∧
      ∀ k, k < n → hasClient s'.broker (s.salt ++ toString (s.counter + k)) = true := by
  induction n generalizing s with
  | zero => exact ⟨s, rfl, rfl, fun _ h => h, fun k hk => absurd hk (Nat.not_lt_zero k)⟩
  | succ n ih =>
    obtain ⟨s', h', hsalt, hmono, hreg⟩ :=
      ih { s with broker := (register s.broker (s.salt ++ toString s.counter)).2,
                  counter := s.counter + 1 }
    refine ⟨s', ?_, hsalt, ?_, ?_⟩
    · simp only [handshakes, handshake, h']
      rw [List.range_succ_eq_map]
      simp only [List.map_cons, List.map_map, Nat.add_zero]
      have hmap : List.map (fun k => s.salt ++ toString (s.counter + 1 + k)) (List.range n)
          = List.map ((fun k => s.salt ++ toString (s.counter + k)) ∘ Nat.succ)
              (List.range n) := by
        apply List.map_congr_left
        intro k _
        simp only [Function.comp]
        rw [Nat.add_assoc, Nat.add_comm 1 k]
      rw [hmap]
    · intro d hd
      exact hmono d (register_hasClient_mono s.broker _ d hd)
    · intro k hk
      cases k with
      | zero => exact hmono _ (register_hasClient_self s.broker _)
      | succ k =>
        have := hreg k (by omega)
        simp only at this
        rw [Nat.add_assoc, Nat.add_comm 1 k] at this
        exact this

/-- C13: for every `n` and a new server, `n` calls of `handshake` one after
the other all return without an error, and the `n` client IDs they return are
pairwise distinct and registered with the broker. -/
theorem handshake_ids_distinct (n : Nat) (salt : String) :
    ∃ ids s, handshakes n (newServer salt) = Except.ok (ids, s) ∧
      ids.length = n ∧ ids.Nodup ∧ ∀ c ∈ ids, hasClient s.broker c = true := by
  obtain ⟨s', h', _, _, hreg⟩ := handshakes_spec n (newServer salt)
  refine ⟨_, s', h', by simp, ?_, ?_⟩
  · refine List.Nodup.map ?_ (List.nodup_range n)
    intro a b hab
    have := salted_id_injective _ _ _ hab
    simpa [newServer] using this
  · intro c hc
    obtain ⟨k, hk, rfl⟩ := List.mem_map.mp hc
    exact hreg k (List.mem_range.mp hk)

/-! ## C4 over both readings of the Router -/

theorem subscribeOver_setRouter (b : Broker) (c ch : String) :
    subscribeOver setRouter b c ch = subscribe b c ch := rfl

theorem unsubscribeOver_setRouter (b : Broker) (c ch : String) :
    unsubscribeOver setRouter b c ch = unsubscribe b c ch := rfl

end Gocomet
